import Mathlib

/-!
# Verification of the SLAB master-stack tiling engine

This file gives a shallow embedding, in Lean 4, of the core logic of the
SLAB tiling extension:

* the master-stack layout algorithm (`src/logic/layout.ts`,
  `calculateMasterStackLayout`) with its dynamic master-width shrink loop,
  overflow/skip policy and greedy row distribution;
* the floating-state snapshot store (`src/managers/tiling.ts`,
  `captureFloatingSnapshot`) and the restore pass
  (`restoreFloatingPositions`), modelled as an explicit trace of
  window-system operations;
* the tileable-window resolver (`src/utils/windows.ts`,
  `getTileableWindows`) with its master-selection priority;
* the drag-swap operation (`swapWindowPositions`) over the tracked tiled
  order and layout positions;
* the disable transition of `toggleSlab` together with
  `disconnectAllWindowSignals`, including cancellation of the pending
  new-window timer.

JavaScript arithmetic conventions used by the source are made explicit:
`Math.floor(a / b)` on integers is `Int.fdiv` (floor division),
`Math.ceil(a / b)` is `-Int.fdiv (-a) b`, and `Array.prototype.slice`
index clamping is modelled by `jsSliceIndex`.  The (float) master ratio is
modelled as a rational number, with `Math.floor` as `Int.floor`.
-/

namespace Slab

/-- `Math.floor(a / b)` for JavaScript numbers holding integers: floor
division on `Int`. -/
def jsFloorDiv (a b : Int) : Int := Int.fdiv a b

/-- `Math.ceil(a / b)` for JavaScript numbers holding integers (with
`b > 0`): ceiling division, expressed through floor division. -/
def jsCeilDiv (a b : Int) : Int := -(Int.fdiv (-a) b)

/-- Clamping of an `Array.prototype.slice` index to `[0, len]`: a negative
index counts from the end of the array. -/
def jsSliceIndex (len : Nat) (i : Int) : Nat :=
  if i < 0 then ((len : Int) + i).toNat else min i.toNat len

/-- `const MIN_WINDOW_WIDTH = 500` (layout.ts). -/
def MIN_WINDOW_WIDTH : Int := 500

/-- `const MIN_WINDOW_HEIGHT = 350` (layout.ts). -/
def MIN_WINDOW_HEIGHT : Int := 350

/-- `const MIN_MASTER_WIDTH = 500` (layout.ts). -/
def MIN_MASTER_WIDTH : Int := 500

/-- A `Meta.Rectangle` as consumed by the layout engine. -/
structure MetaRectangle where
  x : Int
  y : Int
  width : Int
  height : Int
deriving DecidableEq, Repr

/-- `interface LayoutEntry` (layout.ts): one placed window. -/
structure LayoutEntry (W : Type) where
  window : W
  x : Int
  y : Int
  w : Int
  h : Int
deriving DecidableEq, Repr

/-- `interface LayoutResult` (layout.ts). -/
structure LayoutResult (W : Type) where
  entries : List (LayoutEntry W)
  skippedWindows : List W
deriving DecidableEq, Repr

/-- `stackWidth = workArea.width - gap * 3 - masterWidth` (layout.ts). -/
def stackWidthOf (waWidth gap masterWidth : Int) : Int :=
  waWidth - gap * 3 - masterWidth

/-- `maxColumnsPerRow = Math.max(1, Math.floor((stackWidth + gap) /
(MIN_WINDOW_WIDTH + gap)))` (layout.ts). -/
def maxColumnsOf (stackWidth gap : Int) : Int :=
  max 1 (jsFloorDiv (stackWidth + gap) (MIN_WINDOW_WIDTH + gap))

/-- `numRows = Math.ceil(stackCount / maxColumnsPerRow)` (layout.ts). -/
def numRowsOf (stackCount cols : Int) : Int := jsCeilDiv stackCount cols

/-- `rowHeight = Math.floor((workArea.height - gap * (numRows + 1)) /
numRows)` (layout.ts). -/
def rowHeightOf (waHeight gap numRows : Int) : Int :=
  jsFloorDiv (waHeight - gap * (numRows + 1)) numRows

/-- `colWidth = Math.floor((stackWidth - gap * (maxColumnsPerRow - 1)) /
maxColumnsPerRow)` (layout.ts). -/
def colWidthOf (stackWidth gap cols : Int) : Int :=
  jsFloorDiv (stackWidth - gap * (cols - 1)) cols

/-- The condition of the master-width shrink loop at a given master width:
`(rowHeight < MIN_WINDOW_HEIGHT || colWidth < MIN_WINDOW_WIDTH) &&
masterWidth > MIN_MASTER_WIDTH` (layout.ts, the `iterations < 20` bound is
the fuel of the recursion). -/
def shrinkCond (waWidth waHeight gap stackCount masterWidth : Int) : Prop :=
  (rowHeightOf waHeight gap
      (numRowsOf stackCount (maxColumnsOf (stackWidthOf waWidth gap masterWidth) gap))
      < MIN_WINDOW_HEIGHT ∨
    colWidthOf (stackWidthOf waWidth gap masterWidth) gap
      (maxColumnsOf (stackWidthOf waWidth gap masterWidth) gap)
      < MIN_WINDOW_WIDTH) ∧
  MIN_MASTER_WIDTH < masterWidth

instance (waWidth waHeight gap stackCount masterWidth : Int) :
    Decidable (shrinkCond waWidth waHeight gap stackCount masterWidth) := by
  unfold shrinkCond; infer_instance

/-- The master-width shrink loop of `calculateMasterStackLayout`
(layout.ts): while the row height or column width is below its
floor and the master is above `MIN_MASTER_WIDTH`, shrink the master by
50px (not below `MIN_MASTER_WIDTH`) and recompute, for at most `fuel`
(in the source: 20) iterations. -/
def shrinkMasterWidth (waWidth waHeight gap stackCount : Int) :
    Nat → Int → Int
  | 0, masterWidth => masterWidth
  | fuel + 1, masterWidth =>
    if shrinkCond waWidth waHeight gap stackCount masterWidth then
      shrinkMasterWidth waWidth waHeight gap stackCount fuel
        (max MIN_MASTER_WIDTH (masterWidth - 50))
    else masterWidth

/-- Number of iterations actually performed by the shrink loop. -/
def shrinkIterations (waWidth waHeight gap stackCount : Int) :
    Nat → Int → Nat
  | 0, _ => 0
  | fuel + 1, masterWidth =>
    if shrinkCond waWidth waHeight gap stackCount masterWidth then
      shrinkIterations waWidth waHeight gap stackCount fuel
        (max MIN_MASTER_WIDTH (masterWidth - 50)) + 1
    else 0

/-- `masterWidth = Math.floor((workArea.width - gap * 3) * masterRatio)`
(layout.ts): the float multiplication is modelled over `ℚ`. -/
def initialMasterWidth (waWidth gap : Int) (masterRatio : ℚ) : Int :=
  Int.floor (((waWidth - gap * 3 : Int) : ℚ) * masterRatio)

/-- The master width after the shrink loop, starting from a given initial
master width (the source runs the loop for at most 20 iterations). -/
def finalMasterWidthFrom (wa : MetaRectangle) (gap stackCount mw0 : Int) : Int :=
  shrinkMasterWidth wa.width wa.height gap stackCount 20 mw0

/-- The master width after the shrink loop, from the nominal
`masterRatio`-based width. -/
def finalMasterWidth (wa : MetaRectangle) (masterRatio : ℚ)
    (gap stackCount : Int) : Int :=
  finalMasterWidthFrom wa gap stackCount (initialMasterWidth wa.width gap masterRatio)

/-- `maxRows = Math.floor((workArea.height - gap + gap) /
(MIN_WINDOW_HEIGHT + gap))` (layout.ts, kept verbatim). -/
def maxRowsOf (waHeight gap : Int) : Int :=
  jsFloorDiv (waHeight - gap + gap) (MIN_WINDOW_HEIGHT + gap)

/-- `maxStackWindows = maxRows * maxColumnsPerRow` (layout.ts), as a
function of the initial master width. -/
def layoutCapacityFrom (wa : MetaRectangle) (gap stackCount mw0 : Int) : Int :=
  maxRowsOf wa.height gap *
    maxColumnsOf (stackWidthOf wa.width gap (finalMasterWidthFrom wa gap stackCount mw0)) gap

/-- `maxStackWindows = maxRows * maxColumnsPerRow` (layout.ts): the stack
capacity used by the overflow policy. -/
def layoutCapacity (wa : MetaRectangle) (masterRatio : ℚ)
    (gap stackCount : Int) : Int :=
  layoutCapacityFrom wa gap stackCount (initialMasterWidth wa.width gap masterRatio)

/-- The greedy row distribution of `calculateMasterStackLayout`
(layout.ts): row `row` receives `Math.ceil(remaining / rowsLeft)` windows;
the argument counts the rows still to fill (`rowsLeft`). -/
def windowsPerRowList : Nat → Int → List Int
  | 0, _ => []
  | rowsLeft + 1, remaining =>
    let windowsInThisRow := jsCeilDiv remaining (rowsLeft + 1)
    windowsInThisRow :: windowsPerRowList rowsLeft (remaining - windowsInThisRow)

/-- The inner column loop of `calculateMasterStackLayout` (layout.ts): for
each column of a row, place the next stack window; the `windowIndex >=
tileableStackCount` break is modelled by stopping when the window list is
exhausted. -/
def placeRowAux {W : Type} (stackX stackWidth gap rowY rowHeight actualColWidth winInRow : Int) :
    Nat → Int → List W → List (LayoutEntry W) × List W
  | 0, _, ws => ([], ws)
  | _ + 1, _, [] => ([], [])
  | fuel + 1, col, w :: ws =>
    let windowX := stackX + col * (actualColWidth + gap)
    let windowW :=
      if col = winInRow - 1 then stackX + stackWidth - windowX else actualColWidth
    let rest := placeRowAux stackX stackWidth gap rowY rowHeight actualColWidth winInRow
      fuel (col + 1) ws
    (⟨w, windowX, rowY, windowW, rowHeight⟩ :: rest.1, rest.2)

/-- The row loop of `calculateMasterStackLayout` (layout.ts): each row `row`
is placed at `rowY = workArea.y + gap + row * (rowHeight + gap)` with
`actualColWidth = Math.floor((stackWidth - (windowsInRow - 1) * gap) /
windowsInRow)`. -/
def placeRows {W : Type} (waY stackX stackWidth gap rowHeight : Int) :
    List Int → Int → List W → List (LayoutEntry W)
  | [], _, _ => []
  | winInRow :: restRows, row, ws =>
    let rowY := waY + gap + row * (rowHeight + gap)
    let actualColWidth := jsFloorDiv (stackWidth - (winInRow - 1) * gap) winInRow
    let placed := placeRowAux stackX stackWidth gap rowY rowHeight actualColWidth winInRow
      winInRow.toNat 0 ws
    placed.1 ++ placeRows waY stackX stackWidth gap rowHeight restRows (row + 1) placed.2

/-- `calculateMasterStackLayout` (layout.ts) after the initial master
width has been computed: everything from the shrink loop on is integer
arithmetic. -/
def calculateMasterStackLayoutFrom {W : Type} (windows : List W)
    (workArea : MetaRectangle) (gap mw0 : Int) : LayoutResult W :=
  match windows with
  | [] => ⟨[], []⟩
  | [w0] =>
    ⟨[⟨w0, workArea.x + gap, workArea.y + gap,
        workArea.width - gap * 2, workArea.height - gap * 2⟩], []⟩
  | w0 :: stackWindows =>
    let stackCount : Int := stackWindows.length
    let masterWidth := finalMasterWidthFrom workArea gap stackCount mw0
    let stackWidth := stackWidthOf workArea.width gap masterWidth
    let cols := maxColumnsOf stackWidth gap
    let maxStackWindows := layoutCapacityFrom workArea gap stackCount mw0
    let cut :=
      if stackCount > maxStackWindows then jsSliceIndex stackWindows.length maxStackWindows
      else stackWindows.length
    let tileableStackWindows := stackWindows.take cut
    let skippedWindows := stackWindows.drop cut
    let masterEntry : LayoutEntry W :=
      ⟨w0, workArea.x + gap, workArea.y + gap, masterWidth, workArea.height - gap * 2⟩
    if tileableStackWindows.length = 0 then ⟨[masterEntry], skippedWindows⟩
    else
      let tileableStackCount : Int := tileableStackWindows.length
      let numRows := numRowsOf tileableStackCount cols
      let rowHeight := rowHeightOf workArea.height gap numRows
      let windowsPerRow := windowsPerRowList numRows.toNat tileableStackCount
      let stackX := workArea.x + gap * 2 + masterWidth
      ⟨masterEntry ::
          placeRows workArea.y stackX stackWidth gap rowHeight windowsPerRow 0
            tileableStackWindows,
        skippedWindows⟩

/-- `calculateMasterStackLayout` (layout.ts): master-stack layout with
dynamic sizing and overflow handling. -/
def calculateMasterStackLayout {W : Type} (windows : List W)
    (workArea : MetaRectangle) (masterRatio : ℚ) (gap : Int) : LayoutResult W :=
  calculateMasterStackLayoutFrom windows workArea gap
    (initialMasterWidth workArea.width gap masterRatio)

/-! ## Snapshot store and restore pass (`src/managers/tiling.ts`)

A window's externally observable state is modelled by `WinState`; the
restore pass is modelled as the trace of window-system operations it
issues, tagged by the window's stable sequence id. -/

/-- The per-window state observed and mutated through the `Meta.Window`
interface: frame rectangle, fullscreen flag, result of
`getWindowMaximizeState` (0 none / 1 horizontal / 2 vertical / 3 both,
the `Meta.MaximizeFlags` values), and the hidden flag. -/
structure WinState where
  x : Int
  y : Int
  width : Int
  height : Int
  fullscreen : Bool
  maximized : Int
  hidden : Bool
deriving DecidableEq, Repr

/-- `Meta.MaximizeFlags.HORIZONTAL`. -/
def MAXIMIZE_HORIZONTAL : Int := 1

/-- `Meta.MaximizeFlags.VERTICAL`. -/
def MAXIMIZE_VERTICAL : Int := 2

/-- `Meta.MaximizeFlags.BOTH`. -/
def MAXIMIZE_BOTH : Int := 3

/-- `interface WindowSnapshot` (types/index.ts). -/
structure WindowSnapshot where
  x : Int
  y : Int
  width : Int
  height : Int
  wasFullscreen : Bool
  wasMaximized : Int
  stackIndex : Int
deriving DecidableEq, Repr

/-- `type FloatingSnapshot = Map<number, WindowSnapshot>`: a JS `Map`
keyed by stable sequence, as an insertion-ordered association list. -/
abbrev FloatingSnapshot := List (Nat × WindowSnapshot)

/-- `Map.prototype.set`: overwrite in place if the key exists, append
otherwise. -/
def mapSet {α : Type} (m : List (Nat × α)) (k : Nat) (v : α) : List (Nat × α) :=
  if m.any (fun p => p.1 == k) then
    m.map fun p => if p.1 == k then (k, v) else p
  else m ++ [(k, v)]

/-- `Map.prototype.get`. -/
def mapGet {α : Type} (m : List (Nat × α)) (k : Nat) : Option α :=
  (m.find? fun p => p.1 == k).map (·.2)

/-- The `wasMaximized` encoding used by `captureFloatingSnapshot` and
`captureSingleWindowSnapshot` (tiling.ts): the ternary chain mapping the
`getWindowMaximizeState` result to 1 / 2 / 3 / 0. -/
def wasMaximizedOf (maxState : Int) : Int :=
  if maxState = MAXIMIZE_HORIZONTAL then 1
  else if maxState = MAXIMIZE_VERTICAL then 2
  else if maxState = MAXIMIZE_BOTH then 3
  else 0

/-- The snapshot recorded for one window at stack index `i`
(tiling.ts, `captureFloatingSnapshot` loop body). -/
def snapshotOfWindow (st : WinState) (i : Int) : WindowSnapshot :=
  ⟨st.x, st.y, st.width, st.height, st.fullscreen, wasMaximizedOf st.maximized, i⟩

/-- Loop of `captureFloatingSnapshot` (tiling.ts): `snapshot.set(id, ...)`
for each window, with `stackIndex` the position in the input ordering. -/
def captureFloatingSnapshotAux :
    List (Nat × WinState) → Int → FloatingSnapshot → FloatingSnapshot
  | [], _, acc => acc
  | (id, st) :: ws, i, acc =>
    captureFloatingSnapshotAux ws (i + 1) (mapSet acc id (snapshotOfWindow st i))

/-- `captureFloatingSnapshot` (tiling.ts). -/
def captureFloatingSnapshot (windows : List (Nat × WinState)) : FloatingSnapshot :=
  captureFloatingSnapshotAux windows 0 []

/-- A window-system mutation issued by the restore pass. -/
inductive WinOp where
  | moveResize (x y width height : Int)
  | maximize (flags : Int)
  | makeFullscreen
  | raise
deriving DecidableEq, Repr

/-- The operations `restoreFloatingPositions` issues for one window
(tiling.ts, restore loop body): `move_resize_frame`, then the maximize
state, then the fullscreen state. -/
def restoreOpsForWindow (s : WindowSnapshot) : List WinOp :=
  [WinOp.moveResize s.x s.y s.width s.height] ++
    (if s.wasMaximized = 3 then [WinOp.maximize MAXIMIZE_BOTH]
     else if s.wasMaximized = 1 then [WinOp.maximize MAXIMIZE_HORIZONTAL]
     else if s.wasMaximized = 2 then [WinOp.maximize MAXIMIZE_VERTICAL]
     else []) ++
    (if s.wasFullscreen then [WinOp.makeFullscreen] else [])

/-- Insertion step of the `windowsWithSnapshot.sort((a, b) =>
a.snapshot.stackIndex - b.snapshot.stackIndex)` call (tiling.ts). -/
def insertByStackIndex (p : (Nat × WinState) × WindowSnapshot) :
    List ((Nat × WinState) × WindowSnapshot) →
      List ((Nat × WinState) × WindowSnapshot)
  | [] => [p]
  | q :: qs =>
    if p.2.stackIndex < q.2.stackIndex then p :: q :: qs
    else q :: insertByStackIndex p qs

/-- Sorting `windowsWithSnapshot` by `stackIndex` (tiling.ts); the
snapshots restored together carry distinct stack indices, so any
comparison sort agrees with the JS sort here. -/
def sortByStackIndex :
    List ((Nat × WinState) × WindowSnapshot) →
      List ((Nat × WinState) × WindowSnapshot)
  | [] => []
  | p :: ps => insertByStackIndex p (sortByStackIndex ps)

/-- The `maxFullscreenStackIndex` scan of `restoreFloatingPositions`
(tiling.ts), starting from -1. -/
def maxFullscreenStackIndex
    (l : List ((Nat × WinState) × WindowSnapshot)) : Int :=
  l.foldl
    (fun m p => if p.2.wasFullscreen ∧ m < p.2.stackIndex then p.2.stackIndex else m)
    (-1)

/-- `restoreFloatingPositions` (tiling.ts) as the trace of window-system
operations it issues: windows without a snapshot entry are skipped; the
rest are restored in `stackIndex` order (geometry, then maximize, then
fullscreen); afterwards non-fullscreen, non-hidden windows stacked above
the highest fullscreen window are re-raised.  The actor
hiding/animation-suppression calls affect only the compositor's visual
state and are not part of the trace. -/
def restoreFloatingPositions (snap : FloatingSnapshot)
    (windows : List (Nat × WinState)) : List (Nat × WinOp) :=
  let windowsWithSnapshot :=
    windows.filterMap fun w => (mapGet snap w.1).map fun s => (w, s)
  if windowsWithSnapshot.length = 0 then []
  else
    let sorted := sortByStackIndex windowsWithSnapshot
    let maxFsIdx := maxFullscreenStackIndex sorted
    (sorted.map fun p => (restoreOpsForWindow p.2).map fun op => (p.1.1, op)).flatten ++
      (if 0 ≤ maxFsIdx then
        sorted.filterMap fun p =>
          if ¬p.2.wasFullscreen ∧ maxFsIdx < p.2.stackIndex ∧ ¬p.1.2.hidden then
            some (p.1.1, WinOp.raise)
          else none
      else [])

/-- Effect of one window-system operation on a window's state.  `maximize`
and `makeFullscreen` toggle the respective flags; `raise` only affects
the z-order, which is not part of `WinState`. -/
def applyWinOp (st : WinState) : WinOp → WinState
  | WinOp.moveResize x y w h => { st with x := x, y := y, width := w, height := h }
  | WinOp.maximize f => { st with maximized := f }
  | WinOp.makeFullscreen => { st with fullscreen := true }
  | WinOp.raise => st

/-- Replay a tagged trace over an assignment of window states. -/
def applyTrace (σ : Nat → WinState) (tr : List (Nat × WinOp)) : Nat → WinState :=
  tr.foldl
    (fun σ p => fun id => if id = p.1 then applyWinOp (σ id) p.2 else σ id) σ

/-! ## Tileable-window resolver (`src/utils/windows.ts`) -/

/-- The attributes of a window consulted by `getTileableWindows`. -/
structure WinInfo where
  id : Nat
  windowType : Int
  workspace : Int
  monitor : Int
  hidden : Bool
  allowsMove : Bool
  allowsResize : Bool
  onAllWorkspaces : Bool
deriving DecidableEq, Repr

/-- `Meta.WindowType.NORMAL`. -/
def WINDOW_TYPE_NORMAL : Int := 0

/-- Whether `w` is the `newWindow` (compared by stable sequence),
windows.ts. -/
def isNewWindow (newWindow : Option WinInfo) (w : WinInfo) : Bool :=
  match newWindow with
  | some nw => w.id == nw.id
  | none => false

/-- The filtering predicate of `getTileableWindows` (windows.ts): normal
type, active workspace, requested monitor, not hidden (bypassed for the
new window), allows move and resize, not on all workspaces. -/
def isTileableCandidate (activeWorkspace monitor : Int)
    (newWindow : Option WinInfo) (w : WinInfo) : Bool :=
  w.windowType == WINDOW_TYPE_NORMAL &&
  w.workspace == activeWorkspace &&
  w.monitor == monitor &&
  (isNewWindow newWindow w || !w.hidden) &&
  (w.allowsMove && w.allowsResize) &&
  !w.onAllWorkspaces

/-- `getTileableWindows` (windows.ts): filter the stacking-order window
list, force-include a new window missing from the actor list, resolve the
master by priority (new window, then surviving current master, then
focused window) and move it to the front. -/
def getTileableWindows (activeWorkspace : Int) (actors : List WinInfo)
    (focusedWindow : Option WinInfo) (monitor : Int)
    (newWindow : Option WinInfo) (currentMasterId : Option Nat) : List WinInfo :=
  let filtered := actors.filter (isTileableCandidate activeWorkspace monitor newWindow)
  let tileableWindows :=
    match newWindow with
    | some nw =>
      if filtered.any (fun w => w.id == nw.id) then filtered else nw :: filtered
    | none => filtered
  let masterWindowId : Option Nat :=
    match newWindow with
    | some nw => some nw.id
    | none =>
      match currentMasterId with
      | some cm =>
        if tileableWindows.any (fun w => w.id == cm) then some cm else none
      | none => none
  let masterWindowId : Option Nat :=
    match masterWindowId, focusedWindow with
    | none, some f => some f.id
    | m, _ => m
  match masterWindowId with
  | some m =>
    match tileableWindows.find? (fun w => w.id == m) with
    | some master => master :: tileableWindows.eraseP (fun w => w.id == m)
    | none => tileableWindows
  | none => tileableWindows

/-! ## Drag swap (`src/managers/tiling.ts`, `swapWindowPositions`) -/

/-- One entry of `currentLayoutPositions` (tiling.ts). -/
structure LayoutPosition where
  x : Int
  y : Int
  width : Int
  height : Int
deriving DecidableEq, Repr

/-- The module-level drag-tracking state of tiling.ts:
`currentTiledWindows`, `currentLayoutPositions`, and the
`state.currentMasterWindowId` field updated by a swap. -/
structure DragTrackingState (W : Type) where
  currentTiledWindows : List W
  currentLayoutPositions : List LayoutPosition
  currentMasterWindowId : Option Nat

/-- `swapWindowPositions` (tiling.ts): guarded O(1) swap of two windows
in the tracked order.  The returned flag is `true` exactly when the
function falls back to a full re-tile (`applyMasterStackToWorkspace`)
because layout position data is missing; otherwise the two windows are
exchanged in `currentTiledWindows`, the layout position list is left
unchanged, and the master id is refreshed when slot 0 is involved (`seq`
is `get_stable_sequence`). -/
def swapWindowPositions {W : Type} [Inhabited W] (seq : W → Nat)
    (s : DragTrackingState W) (indexA indexB : Int) :
    DragTrackingState W × Bool :=
  if indexA = indexB then (s, false)
  else if indexA < 0 ∨ indexB < 0 then (s, false)
  else if (s.currentTiledWindows.length : Int) ≤ indexA ∨
      (s.currentTiledWindows.length : Int) ≤ indexB then (s, false)
  else if (s.currentLayoutPositions.length : Int) ≤ indexA ∨
      (s.currentLayoutPositions.length : Int) ≤ indexB then (s, true)
  else
    let windowA := s.currentTiledWindows.getD indexA.toNat default
    let windowB := s.currentTiledWindows.getD indexB.toNat default
    let newWindows :=
      (s.currentTiledWindows.set indexA.toNat windowB).set indexB.toNat windowA
    let newMaster :=
      if indexA = 0 ∨ indexB = 0 then some (seq (newWindows.getD 0 default))
      else s.currentMasterWindowId
    (⟨newWindows, s.currentLayoutPositions, newMaster⟩, false)

/-! ## Lifecycle: the disable transition of `toggleSlab`
(`src/managers/tiling.ts`) -/

/-- `DragState` (managers/drag.ts): the per-gesture drag session. -/
structure DragState where
  draggedWindowId : Nat
  originalIndex : Int
  signalIds : List Nat
deriving DecidableEq, Repr

/-- The fields of `SlabState` (types/index.ts) read or written along the
disable transition, together with the set of live GLib timeout sources
(`activeTimeoutSources`), which models which `GLib.timeout_add` sources
have not been removed. -/
structure SlabLifecycleState where
  tilingEnabled : Bool
  floatingSnapshot : FloatingSnapshot
  currentMasterWindowId : Option Nat
  windowSignals : List (Nat × List Nat)
  pendingNewWindowTimeoutId : Option Nat
  dragState : Option DragState
  activeTimeoutSources : List Nat
deriving DecidableEq, Repr

/-- `cancelDrag` (drag.ts): disconnects the drag session's signals and
clears `state.dragState`; only the `SlabState` effect is modelled. -/
def cancelDrag (s : SlabLifecycleState) : SlabLifecycleState :=
  { s with dragState := none }

/-- `cleanupDragManager` (drag.ts): disconnects the display-level grab
signals, cancels any active drag, destroys the overlay and clears the
module-level callbacks; the `SlabState` effect is `cancelDrag`. -/
def cleanupDragManager (s : SlabLifecycleState) : SlabLifecycleState :=
  cancelDrag s

/-- `disconnectAllWindowSignals` (tiling.ts): disconnects every tracked
per-window signal, clears `windowSignals`, clears the master id, and
cancels the pending new-window timeout via `GLib.source_remove` when one
is set. -/
def disconnectAllWindowSignals (s : SlabLifecycleState) : SlabLifecycleState :=
  let s1 := { s with windowSignals := [], currentMasterWindowId := none }
  match s1.pendingNewWindowTimeoutId with
  | some tid =>
    { s1 with
      activeTimeoutSources := s1.activeTimeoutSources.filter fun t => t != tid,
      pendingNewWindowTimeoutId := none }
  | none => s1

/-- The `state.tilingEnabled` branch of `toggleSlab` (tiling.ts, the
Tiled→Floating transition): clean up the drag manager, disconnect all
window signals (cancelling the pending new-window timeout), un-minimize
and restore the windows (`restoreFloatingPositions`, which issues
window-system operations but touches no `SlabState` field), set
`tilingEnabled := false` and clear the floating snapshot. -/
def toggleSlabDisable (s : SlabLifecycleState) : SlabLifecycleState :=
  let s1 := cleanupDragManager s
  let s2 := disconnectAllWindowSignals s1
  { s2 with tilingEnabled := false, floatingSnapshot := [] }

/-! ## Geometry predicates for non-overlap and containment -/

/-- Membership of an integer point in the half-open box
`[x, x + w) × [y, y + h)`. -/
def ptInRect (x y w h : Int) (p : Int × Int) : Prop :=
  x ≤ p.1 ∧ p.1 < x + w ∧ y ≤ p.2 ∧ p.2 < y + h

/-- Two layout entries are non-overlapping: no point lies in both
rectangles. -/
def entryDisjoint {W : Type} (a b : LayoutEntry W) : Prop :=
  ∀ p : Int × Int, ptInRect a.x a.y a.w a.h p → ptInRect b.x b.y b.w b.h p → False

/-- A layout entry's rectangle is contained in the work area. -/
def entryContained {W : Type} (wa : MetaRectangle) (e : LayoutEntry W) : Prop :=
  ∀ p : Int × Int, ptInRect e.x e.y e.w e.h p →
    ptInRect wa.x wa.y wa.width wa.height p

/-! ## Arithmetic facts about the JavaScript division helpers -/

theorem jsFloorDiv_mul_le (a : Int) {b : Int} (hb : 0 < b) : b * jsFloorDiv a b ≤ a := by
  simp only [jsFloorDiv, Int.fdiv_eq_ediv _ (le_of_lt hb)]
  have := (Int.le_ediv_iff_mul_le hb (a := a / b) (b := a)).mp le_rfl
  linarith

theorem le_jsFloorDiv {a b c : Int} (hb : 0 < b) (h : b * c ≤ a) : c ≤ jsFloorDiv a b := by
  simp only [jsFloorDiv, Int.fdiv_eq_ediv _ (le_of_lt hb)]
  exact (Int.le_ediv_iff_mul_le hb).mpr (by linarith)

theorem jsFloorDiv_lt {a b : Int} (hb : 0 < b) : a < b * (jsFloorDiv a b + 1) := by
  simp only [jsFloorDiv, Int.fdiv_eq_ediv _ (le_of_lt hb)]
  have := Int.lt_ediv_add_one_mul_self a hb
  linarith

theorem jsFloorDiv_nonneg {a b : Int} (ha : 0 ≤ a) (hb : 0 ≤ b) : 0 ≤ jsFloorDiv a b :=
  Int.fdiv_nonneg ha hb

theorem le_mul_jsCeilDiv (a : Int) {b : Int} (hb : 0 < b) : a ≤ b * jsCeilDiv a b := by
  have := jsFloorDiv_mul_le (-a) hb
  rw [jsCeilDiv]
  rw [jsFloorDiv] at this
  rw [show b * -Int.fdiv (-a) b = -(b * Int.fdiv (-a) b) by ring]
  omega

theorem jsCeilDiv_le_iff {a b c : Int} (hb : 0 < b) : jsCeilDiv a b ≤ c ↔ a ≤ b * c := by
  simp only [jsCeilDiv, jsFloorDiv, Int.fdiv_eq_ediv _ (le_of_lt hb)]
  rw [neg_le, Int.le_ediv_iff_mul_le hb]
  constructor <;> intro h <;> linarith

theorem le_jsCeilDiv_iff {a b c : Int} (hb : 0 < b) : c ≤ jsCeilDiv a b ↔ b * (c - 1) < a := by
  simp only [jsCeilDiv, jsFloorDiv, Int.fdiv_eq_ediv _ (le_of_lt hb)]
  rw [le_neg]
  constructor
  · intro h
    have h2 : (-a) / b < -c + 1 := by omega
    have := (Int.ediv_lt_iff_lt_mul hb).mp h2
    linarith
  · intro h
    have h2 : -a < (-c + 1) * b := by linarith
    have := (Int.ediv_lt_iff_lt_mul hb).mpr h2
    omega

theorem jsCeilDiv_nonneg {a b : Int} (ha : 0 ≤ a) (hb : 0 < b) : 0 ≤ jsCeilDiv a b := by
  rw [le_jsCeilDiv_iff hb]; nlinarith

theorem jsCeilDiv_pos {a b : Int} (ha : 1 ≤ a) (hb : 0 < b) : 1 ≤ jsCeilDiv a b := by
  rw [le_jsCeilDiv_iff hb]; nlinarith

theorem jsCeilDiv_le_self {a b : Int} (ha : 0 ≤ a) (hb : 1 ≤ b) : jsCeilDiv a b ≤ a := by
  rw [jsCeilDiv_le_iff (by omega)]; nlinarith

theorem jsCeilDiv_one (a : Int) : jsCeilDiv a 1 = a := by
  simp [jsCeilDiv, jsFloorDiv, Int.fdiv_one]

theorem maxColumnsOf_pos (sw g : Int) : 1 ≤ maxColumnsOf sw g := le_max_left 1 _

/-! ## Shrink-loop lemmas -/

theorem shrinkMasterWidth_le (waW waH g c : Int) :
    ∀ (fuel : Nat) (mw : Int), shrinkMasterWidth waW waH g c fuel mw ≤ mw := by
  intro fuel
  induction fuel with
  | zero => intro mw; simp [shrinkMasterWidth]
  | succ n ih =>
    intro mw
    rw [shrinkMasterWidth]
    split
    · rename_i hc
      have h2 := hc.2
      have := ih (max MIN_MASTER_WIDTH (mw - 50))
      have hm : max MIN_MASTER_WIDTH (mw - 50) ≤ mw := by
        simp only [MIN_MASTER_WIDTH] at h2 ⊢; omega
      omega
    · exact le_rfl

theorem shrinkMasterWidth_cases (waW waH g c : Int) :
    ∀ (fuel : Nat) (mw : Int),
      shrinkMasterWidth waW waH g c fuel mw = mw ∨
        MIN_MASTER_WIDTH ≤ shrinkMasterWidth waW waH g c fuel mw := by
  have aux : ∀ (fuel : Nat) (mw : Int), MIN_MASTER_WIDTH ≤ mw →
      MIN_MASTER_WIDTH ≤ shrinkMasterWidth waW waH g c fuel mw := by
    intro fuel
    induction fuel with
    | zero => intro mw h; simpa [shrinkMasterWidth] using h
    | succ n ih =>
      intro mw h
      rw [shrinkMasterWidth]
      split
      · exact ih _ (le_max_left _ _)
      · exact h
  intro fuel mw
  cases fuel with
  | zero => left; rfl
  | succ n =>
    rw [shrinkMasterWidth]
    split
    · right; exact aux n _ (le_max_left _ _)
    · left; rfl

theorem shrinkIterations_le_fuel (waW waH g c : Int) :
    ∀ (fuel : Nat) (mw : Int), shrinkIterations waW waH g c fuel mw ≤ fuel := by
  intro fuel
  induction fuel with
  | zero => intro mw; simp [shrinkIterations]
  | succ n ih =>
    intro mw
    rw [shrinkIterations]
    split
    · exact Nat.succ_le_succ (ih _)
    · exact Nat.zero_le _

/-! ## Initial master width bounds (from the rational floor) -/

theorem initialMasterWidth_nonneg {waW g : Int} {r : ℚ} (ha : 0 ≤ waW - g * 3)
    (hr : 0 < r) : 0 ≤ initialMasterWidth waW g r := by
  unfold initialMasterWidth
  apply Int.floor_nonneg.mpr
  have : (0 : ℚ) ≤ ((waW - g * 3 : Int) : ℚ) := by exact_mod_cast ha
  positivity

theorem initialMasterWidth_lt {waW g : Int} {r : ℚ} (ha : 0 < waW - g * 3)
    (hr1 : r < 1) : initialMasterWidth waW g r < waW - g * 3 := by
  unfold initialMasterWidth
  apply Int.floor_lt.mpr
  have ha' : (0 : ℚ) < ((waW - g * 3 : Int) : ℚ) := by exact_mod_cast ha
  calc ((waW - g * 3 : Int) : ℚ) * r < ((waW - g * 3 : Int) : ℚ) * 1 := by
        exact mul_lt_mul_of_pos_left hr1 ha'
    _ = ((waW - g * 3 : Int) : ℚ) := by ring

theorem stackWidth_nonpos_of_neg {waW g : Int} {r : ℚ} (ha : waW - g * 3 < 0)
    (hr1 : r < 1) : waW - g * 3 - initialMasterWidth waW g r ≤ 0 := by
  unfold initialMasterWidth
  set a : Int := waW - g * 3 with hadef
  have hfl : ((a : ℚ)) * r - 1 < (Int.floor ((a : ℚ) * r) : ℚ) := by
    have := Int.sub_one_lt_floor ((a : ℚ) * r)
    exact_mod_cast this
  have haq : ((a : ℚ)) < 0 := by exact_mod_cast ha
  have key : ((a - Int.floor ((a : ℚ) * r) : Int) : ℚ) < 1 := by
    push_cast
    have : (a : ℚ) * (1 - r) < 0 := by
      apply mul_neg_of_neg_of_pos haq
      linarith
    nlinarith
  have : (a - Int.floor ((a : ℚ) * r) : Int) < 1 := by exact_mod_cast key
  omega

/-! ## Row distribution and placement: structural lemmas -/

theorem windowsPerRowList_length : ∀ (L : Nat) (rem : Int),
    (windowsPerRowList L rem).length = L := by
  intro L
  induction L with
  | zero => intro rem; simp [windowsPerRowList]
  | succ n ih => intro rem; simp [windowsPerRowList, ih]

theorem windowsPerRowList_sum_succ : ∀ (L : Nat) (rem : Int), 0 ≤ rem →
    ((windowsPerRowList (L + 1) rem).map Int.toNat).sum = rem.toNat := by
  intro L
  induction L with
  | zero => intro rem hrem; simp [windowsPerRowList, jsCeilDiv_one]
  | succ n ih =>
    intro rem hrem
    have hb : (0 : Int) < ((n + 1 : Nat) : Int) + 1 := by positivity
    have hk0 : 0 ≤ jsCeilDiv rem (((n + 1 : Nat) : Int) + 1) := jsCeilDiv_nonneg hrem hb
    have hkr : jsCeilDiv rem (((n + 1 : Nat) : Int) + 1) ≤ rem :=
      jsCeilDiv_le_self hrem (by push_cast; omega)
    have step : windowsPerRowList (n + 1 + 1) rem =
        jsCeilDiv rem (((n + 1 : Nat) : Int) + 1) ::
          windowsPerRowList (n + 1) (rem - jsCeilDiv rem (((n + 1 : Nat) : Int) + 1)) := rfl
    rw [step, List.map_cons, List.sum_cons, ih _ (by omega)]
    omega

theorem windowsPerRowList_sum (L : Nat) (rem : Int) (h0 : 0 ≤ rem) (h1 : 1 ≤ L) :
    ((windowsPerRowList L rem).map Int.toNat).sum = rem.toNat := by
  cases L with
  | zero => omega
  | succ n => exact windowsPerRowList_sum_succ n rem h0

theorem placeRowAux_windows {W : Type} (sX sw g rY rH acw k : Int) :
    ∀ (fuel : Nat) (col : Int) (ws : List W),
      (placeRowAux sX sw g rY rH acw k fuel col ws).1.map (·.window) = ws.take fuel ∧
      (placeRowAux sX sw g rY rH acw k fuel col ws).2 = ws.drop fuel := by
  intro fuel
  induction fuel with
  | zero => intro col ws; simp [placeRowAux]
  | succ n ih =>
    intro col ws
    cases ws with
    | nil => simp [placeRowAux]
    | cons w ws' =>
      have := ih (col + 1) ws'
      simp only [placeRowAux, List.map_cons, List.take_succ_cons, List.drop_succ_cons]
      exact ⟨by rw [this.1], this.2⟩

theorem placeRows_windows {W : Type} (waY sX sw g rH : Int) :
    ∀ (wpr : List Int) (row : Int) (ws : List W),
      (placeRows waY sX sw g rH wpr row ws).map (·.window) =
        ws.take ((wpr.map Int.toNat).sum) := by
  intro wpr
  induction wpr with
  | nil => intro row ws; simp [placeRows]
  | cons k rest ih =>
    intro row ws
    simp only [placeRows, List.map_append, List.map_cons, List.sum_cons]
    rw [(placeRowAux_windows _ _ _ _ _ _ _ _ _ _).1,
        (placeRowAux_windows _ _ _ _ _ _ _ _ _ _).2, ih]
    exact (List.take_add _ _ _).symm

/-- Partition behaviour of the two-or-more-windows branch of the layout,
for an arbitrary initial master width. -/
theorem calcFrom_partition {W : Type} (w0 w1 : W) (rest : List W)
    (wa : MetaRectangle) (g mw0 : Int) :
    (calculateMasterStackLayoutFrom (w0 :: w1 :: rest) wa g mw0).entries.map (·.window) ++
        (calculateMasterStackLayoutFrom (w0 :: w1 :: rest) wa g mw0).skippedWindows =
      w0 :: w1 :: rest ∧
    (calculateMasterStackLayoutFrom (w0 :: w1 :: rest) wa g mw0).entries.map (·.window) =
      w0 :: (w1 :: rest).take
        (if ((w1 :: rest).length : Int) > layoutCapacityFrom wa g ((w1 :: rest).length : Int) mw0
         then jsSliceIndex (w1 :: rest).length
            (layoutCapacityFrom wa g ((w1 :: rest).length : Int) mw0)
         else (w1 :: rest).length) ∧
    (calculateMasterStackLayoutFrom (w0 :: w1 :: rest) wa g mw0).skippedWindows =
      (w1 :: rest).drop
        (if ((w1 :: rest).length : Int) > layoutCapacityFrom wa g ((w1 :: rest).length : Int) mw0
         then jsSliceIndex (w1 :: rest).length
            (layoutCapacityFrom wa g ((w1 :: rest).length : Int) mw0)
         else (w1 :: rest).length) := by
  simp only [calculateMasterStackLayoutFrom]
  set stackWindows := w1 :: rest with hsw
  set cut :=
    if ((w1 :: rest).length : Int) > layoutCapacityFrom wa g ((w1 :: rest).length : Int) mw0
    then jsSliceIndex (w1 :: rest).length
        (layoutCapacityFrom wa g ((w1 :: rest).length : Int) mw0)
    else (w1 :: rest).length with hcut
  split
  · rename_i hlen
    have htake : stackWindows.take cut = [] := List.eq_nil_of_length_eq_zero hlen
    have hsplit := List.take_append_drop cut stackWindows
    rw [htake] at hsplit
    simp only [List.nil_append] at hsplit
    refine ⟨?_, ?_, rfl⟩
    · simp [htake, hsplit]
    · simp [htake]
  · rename_i hlen
    have hlen1 : 1 ≤ (stackWindows.take cut).length := Nat.one_le_iff_ne_zero.mpr hlen
    have hcols : (0 : Int) < maxColumnsOf (stackWidthOf wa.width g
        (finalMasterWidthFrom wa g (stackWindows.length : Int) mw0)) g := by
      have := maxColumnsOf_pos (stackWidthOf wa.width g
        (finalMasterWidthFrom wa g (stackWindows.length : Int) mw0)) g
      omega
    have hpos : 1 ≤ numRowsOf ((stackWindows.take cut).length : Int)
        (maxColumnsOf (stackWidthOf wa.width g
          (finalMasterWidthFrom wa g (stackWindows.length : Int) mw0)) g) := by
      apply jsCeilDiv_pos _ hcols
      exact_mod_cast hlen1
    constructor
    · simp only [List.map_cons, List.cons_append]
      rw [placeRows_windows, windowsPerRowList_sum _ _ (by positivity) (by omega)]
      rw [Int.toNat_natCast, List.take_length, List.take_append_drop]
    constructor
    · simp only [List.map_cons]
      rw [placeRows_windows, windowsPerRowList_sum _ _ (by positivity) (by omega)]
      rw [Int.toNat_natCast, List.take_length]
    · rfl

/-! ## Claim theorems -/

/-- **C6** — Single-window layout: for an input list of exactly one
window, any master ratio in `(0,1)` and any gap `g ≥ 0`,
`calculateMasterStackLayout` returns exactly one entry whose rectangle is
the work area inset by `g` on all sides, and an empty `skippedWindows`
list. -/
theorem single_window_layout {W : Type} (w : W) (wa : MetaRectangle) (r : ℚ) (g : Int)
    (hr0 : 0 < r) (hr1 : r < 1) (hg : 0 ≤ g) :
    calculateMasterStackLayout [w] wa r g =
      ⟨[⟨w, wa.x + g, wa.y + g, wa.width - g * 2, wa.height - g * 2⟩], []⟩ := rfl

/-- Witness for `single_window_layout` at a concrete input. -/
theorem single_window_layout_witness :
    calculateMasterStackLayout [0] ⟨0, 0, 800, 600⟩ (1/2) 5 =
      ⟨[⟨0, 0 + 5, 0 + 5, 800 - 5 * 2, 600 - 5 * 2⟩], []⟩ :=
  single_window_layout (0 : Nat) ⟨0, 0, 800, 600⟩ (1/2) 5 (by norm_num) (by norm_num)
    (by norm_num)

/-- **C10** — Partition invariant: every window of a non-empty input
appears exactly once across the output — the placed entries followed by
the skipped windows are exactly the input list — the entry list is never
empty, and the master `windows[0]` is always the first placed entry,
never skipped. -/
theorem layout_partitions_windows {W : Type} (windows : List W)
    (wa : MetaRectangle) (r : ℚ) (g : Int) (hne : windows ≠ []) :
    (calculateMasterStackLayout windows wa r g).entries.map (·.window) ++
        (calculateMasterStackLayout windows wa r g).skippedWindows = windows ∧
    (calculateMasterStackLayout windows wa r g).entries ≠ [] ∧
    ((calculateMasterStackLayout windows wa r g).entries.map (·.window)).head? =
      windows.head? := by
  match windows with
  | [] => exact absurd rfl hne
  | [w] =>
    refine ⟨rfl, ?_, rfl⟩
    intro h
    exact List.cons_ne_nil _ _ h
  | w0 :: w1 :: rest =>
    have hp := calcFrom_partition w0 w1 rest wa g (initialMasterWidth wa.width g r)
    unfold calculateMasterStackLayout
    refine ⟨hp.1, ?_, ?_⟩
    · intro h
      have := hp.2.1
      rw [h] at this
      exact List.cons_ne_nil _ _ this.symm
    · rw [hp.2.1]; rfl

/-- Witness for `layout_partitions_windows` at a concrete input. -/
theorem layout_partitions_windows_witness :
    (calculateMasterStackLayout [7, 8, 9] ⟨0, 0, 1920, 1080⟩ (1/2) 10 :
        LayoutResult Nat).entries.map (·.window) ++
        (calculateMasterStackLayout [7, 8, 9] ⟨0, 0, 1920, 1080⟩ (1/2) 10 :
        LayoutResult Nat).skippedWindows = [7, 8, 9] ∧
    (calculateMasterStackLayout [7, 8, 9] ⟨0, 0, 1920, 1080⟩ (1/2) 10 :
        LayoutResult Nat).entries ≠ [] ∧
    ((calculateMasterStackLayout [7, 8, 9] ⟨0, 0, 1920, 1080⟩ (1/2) 10 :
        LayoutResult Nat).entries.map (·.window)).head? = some 7 :=
  layout_partitions_windows [7, 8, 9] ⟨0, 0, 1920, 1080⟩ (1/2) 10 (by decide)

/-- **C2** counterexample — in the documented scenario
(`workArea = {0,0,1920,1080}`, `masterRatio = 0.5`, `gap = 10`, 3
windows) the master entry is *not* placed at `(10,10,930,1060)`: the
code's master width is `⌊0.5·(1920 − 3·10)⌋ = 945`, not 930. -/
theorem scenario_master_930_counterexample :
    ¬ ((calculateMasterStackLayout [0, 1, 2] ⟨0, 0, 1920, 1080⟩ (1/2) 10 :
        LayoutResult Nat)).entries.head?.map (fun e => (e.x, e.y, e.w, e.h)) =
      some (10, 10, 930, 1060) := by
  have h : initialMasterWidth 1920 10 (1/2) = 945 := by
    unfold initialMasterWidth; norm_num
  unfold calculateMasterStackLayout
  rw [show (⟨0, 0, 1920, 1080⟩ : MetaRectangle).width = 1920 from rfl, h]
  decide

/-- **C2** amended — in the documented scenario the master is placed at
`(10,10,945,1060)` (width `masterRatio · (workArea.width − 3·gap)` with
floor rounding), and the 2 stack windows each occupy half the remaining
height: `⌊(1080 − 3·10)/2⌋ = 525`. -/
theorem scenario_layout_amended (W : Type) (w0 w1 w2 : W) :
    calculateMasterStackLayout [w0, w1, w2] ⟨0, 0, 1920, 1080⟩ (1/2) 10 =
      ⟨[⟨w0, 10, 10, 945, 1060⟩, ⟨w1, 965, 10, 945, 525⟩,
        ⟨w2, 965, 545, 945, 525⟩], []⟩ := by
  have h : initialMasterWidth 1920 10 (1/2) = 945 := by
    unfold initialMasterWidth; norm_num
  unfold calculateMasterStackLayout
  rw [show (⟨0, 0, 1920, 1080⟩ : MetaRectangle).width = 1920 from rfl, h]
  simp only [calculateMasterStackLayoutFrom, List.length_cons, List.length_nil]
  norm_num
  rfl

/-- **C3** counterexample — the overflow count formula fails when the
computed capacity is negative: with `workArea = {0,0,2000,-1}`,
`masterRatio = 0.5`, `gap = 0` and 3 windows, the stack count 2 exceeds
the capacity (−3), yet `skippedWindows` has 2 entries, not
`stackCount − capacity = 5` (the `Array.prototype.slice` calls clamp the
negative capacity index). -/
theorem overflow_count_counterexample :
    (2 : Int) > layoutCapacity ⟨0, 0, 2000, -1⟩ (1/2) 0 2 ∧
    ¬ (((calculateMasterStackLayout [0, 1, 2] ⟨0, 0, 2000, -1⟩ (1/2) 0 :
        LayoutResult Nat)).skippedWindows.length : Int) =
      2 - layoutCapacity ⟨0, 0, 2000, -1⟩ (1/2) 0 2 := by
  have h : initialMasterWidth 2000 0 (1/2) = 1000 := by
    unfold initialMasterWidth; norm_num
  unfold layoutCapacity calculateMasterStackLayout
  rw [show (⟨0, 0, 2000, -1⟩ : MetaRectangle).width = 2000 from rfl, h]
  decide

/-- The layout always places at least the master entry. -/
theorem layout_entries_ne_nil {W : Type} (windows : List W) (wa : MetaRectangle)
    (r : ℚ) (g : Int) (hne : windows ≠ []) :
    (calculateMasterStackLayout windows wa r g).entries ≠ [] := by
  match windows with
  | [] => exact absurd rfl hne
  | [w] => intro h; exact List.cons_ne_nil _ _ h
  | w0 :: w1 :: rest =>
    have hp := (calcFrom_partition w0 w1 rest wa g (initialMasterWidth wa.width g r)).2.1
    unfold calculateMasterStackLayout
    intro h
    rw [h] at hp
    exact List.cons_ne_nil _ _ hp.symm

/-- **C7** — Termination and boundedness: the layout is a total function
producing a non-empty placement for every non-empty window list, every
master ratio in `(0,1)` and every gap `g ≥ 0`, and the master-width
shrink loop performs at most 20 iterations. -/
theorem layout_total_shrink_bounded {W : Type} (windows : List W)
    (wa : MetaRectangle) (r : ℚ) (g : Int)
    (hr0 : 0 < r) (hr1 : r < 1) (hg : 0 ≤ g) (hne : windows ≠ []) :
    (∀ stackCount mw0 : Int,
      shrinkIterations wa.width wa.height g stackCount 20 mw0 ≤ 20) ∧
    (calculateMasterStackLayout windows wa r g).entries ≠ [] := by
  refine ⟨fun stackCount mw0 => shrinkIterations_le_fuel _ _ _ _ 20 mw0, ?_⟩
  exact layout_entries_ne_nil windows wa r g hne

/-- Witness for `layout_total_shrink_bounded` at a concrete input. -/
theorem layout_total_shrink_bounded_witness :
    (∀ stackCount mw0 : Int,
      shrinkIterations 1920 1080 10 stackCount 20 mw0 ≤ 20) ∧
    (calculateMasterStackLayout [3, 4] ⟨0, 0, 1920, 1080⟩ (1/2) 10 :
        LayoutResult Nat).entries ≠ [] :=
  layout_total_shrink_bounded [3, 4] ⟨0, 0, 1920, 1080⟩ (1/2) 10 (by norm_num)
    (by norm_num) (by norm_num) (by decide)


theorem sepRel_entryDisjoint {W : Type} {a b : LayoutEntry W}
    (h : a.x + a.w ≤ b.x ∨ a.y + a.h ≤ b.y ∨ a.h ≤ 0) : entryDisjoint a b := by
  intro p hpa hpb
  obtain ⟨ha1, ha2, ha3, ha4⟩ := hpa
  obtain ⟨hb1, hb2, hb3, hb4⟩ := hpb
  rcases h with h | h | h <;> omega

theorem placeRowAux_spec {W : Type} (sX sw g rY rH acw k : Int)
    (hg : 0 ≤ g) (hacw : k ≤ 1 ∨ 0 ≤ acw) :
    ∀ (fuel : Nat) (col : Int) (ws : List W), 0 ≤ col → col + fuel ≤ k →
      (∀ e ∈ (placeRowAux sX sw g rY rH acw k fuel col ws).1,
        ∃ c : Int, col ≤ c ∧ c ≤ k - 1 ∧ e.y = rY ∧ e.h = rH ∧
          e.x = sX + c * (acw + g) ∧
          ((c < k - 1 ∧ e.w = acw) ∨ (c = k - 1 ∧ e.x + e.w = sX + sw))) ∧
      (placeRowAux sX sw g rY rH acw k fuel col ws).1.Pairwise
        (fun a b => a.x + a.w ≤ b.x) := by
  intro fuel
  induction fuel with
  | zero => intro col ws _ _; simp [placeRowAux]
  | succ n ih =>
    intro col ws hcol hle
    cases ws with
    | nil => simp [placeRowAux]
    | cons w ws' =>
      have hle' : (col + 1) + n ≤ k := by push_cast at hle ⊢; omega
      have ihh := ih (col + 1) ws' (by omega) hle'
      have hcolk : col ≤ k - 1 := by push_cast at hle; omega
      constructor
      · intro e he
        simp only [placeRowAux, List.mem_cons] at he
        rcases he with rfl | he
        · refine ⟨col, le_rfl, hcolk, rfl, rfl, rfl, ?_⟩
          by_cases hc : col = k - 1
          · right
            refine ⟨hc, ?_⟩
            simp only [if_pos hc]
            ring
          · left
            refine ⟨by omega, ?_⟩
            simp only [if_neg hc]
        · obtain ⟨c, hc1, hc2, hc3⟩ := ihh.1 e he
          exact ⟨c, by omega, hc2, hc3⟩
      · simp only [placeRowAux]
        rw [List.pairwise_cons]
        refine ⟨?_, ihh.2⟩
        intro b hb
        obtain ⟨c, hc1, hc2, _, _, hbx, _⟩ := ihh.1 b hb
        simp only
        by_cases hc : col = k - 1
        · omega
        · rw [if_neg hc, hbx]
          have hacw' : 0 ≤ acw := by
            rcases hacw with h | h
            · omega
            · exact h
          nlinarith

theorem placeRows_spec {W : Type} (waY sX sw g rH cols : Int)
    (hg : 0 ≤ g) (hcols1 : 1 ≤ cols)
    (hcols2 : 2 ≤ cols → cols * (MIN_WINDOW_WIDTH + g) ≤ sw + g) :
    ∀ (wpr : List Int) (row : Int) (ws : List W),
      (∀ k ∈ wpr, 0 ≤ k ∧ k ≤ cols) →
      (∀ e ∈ placeRows waY sX sw g rH wpr row ws,
        e.h = rH ∧
        (∃ ρ : Int, row ≤ ρ ∧ ρ < row + (wpr.length : Int) ∧
          e.y = waY + g + ρ * (rH + g)) ∧
        sX ≤ e.x ∧ e.x + e.w ≤ sX + sw ∧ (0 < e.w → 0 < sw)) ∧
      (placeRows waY sX sw g rH wpr row ws).Pairwise
        (fun a b => a.x + a.w ≤ b.x ∨ a.y + a.h ≤ b.y ∨ a.h ≤ 0) := by
  intro wpr
  induction wpr with
  | nil => intro row ws _; simp [placeRows]
  | cons k rest ih =>
    intro row ws hks
    obtain ⟨hk0, hkc⟩ := hks k (List.mem_cons_self _ _)
    have hks' : ∀ k' ∈ rest, 0 ≤ k' ∧ k' ≤ cols := fun k' hk' =>
      hks k' (List.mem_cons_of_mem _ hk')
    set rowY := waY + g + row * (rH + g) with hrowY
    set acw := jsFloorDiv (sw - (k - 1) * g) k with hacw
    -- row-level facts about acw, depending on k
    have hrowfacts : ∀ e ∈ (placeRowAux sX sw g rowY rH acw k k.toNat 0 ws).1,
        e.y = rowY ∧ e.h = rH ∧ sX ≤ e.x ∧ e.x + e.w ≤ sX + sw ∧ (0 < e.w → 0 < sw) := by
      rcases lt_or_le k 2 with hk2 | hk2
      · -- k ≤ 1 : at most one window, occupying the whole stack width
        have hchar := placeRowAux_spec sX sw g rowY rH acw k hg (Or.inl (by omega))
          k.toNat 0 ws le_rfl (by omega)
        intro e he
        obtain ⟨c, hc0, hc1, hey, heh, hex, hw⟩ := hchar.1 e he
        have hc : c = 0 := by omega
        have hk1 : k = 1 := by omega
        rcases hw with ⟨hlt, _⟩ | ⟨_, hlast⟩
        · omega
        · subst hc
          simp only [zero_mul, add_zero] at hex
          refine ⟨hey, heh, by omega, by omega, ?_⟩
          intro hw0
          omega
      · -- k ≥ 2 : every column is at least MIN_WINDOW_WIDTH wide
        have hkpos : (0 : Int) < k := by omega
        have hc2 : cols * (MIN_WINDOW_WIDTH + g) ≤ sw + g := hcols2 (by omega)
        have hkb : k * (MIN_WINDOW_WIDTH + g) ≤ sw + g := by
          have : k * (MIN_WINDOW_WIDTH + g) ≤ cols * (MIN_WINDOW_WIDTH + g) := by
            apply mul_le_mul_of_nonneg_right hkc
            simp [MIN_WINDOW_WIDTH]; omega
          omega
        have hacw500 : MIN_WINDOW_WIDTH ≤ acw := by
          rw [hacw]
          apply le_jsFloorDiv hkpos
          simp only [MIN_WINDOW_WIDTH] at hkb ⊢
          nlinarith
        have hmul : k * acw ≤ sw - (k - 1) * g := by
          rw [hacw]
          exact jsFloorDiv_mul_le _ hkpos
        have hchar := placeRowAux_spec sX sw g rowY rH acw k hg
          (Or.inr (by simp only [MIN_WINDOW_WIDTH] at hacw500; omega))
          k.toNat 0 ws le_rfl (by omega)
        intro e he
        obtain ⟨c, hc0, hc1, hey, heh, hex, hw⟩ := hchar.1 e he
        have hacw0 : (0 : Int) ≤ acw := by simp only [MIN_WINDOW_WIDTH] at hacw500; omega
        have hxlow : sX ≤ e.x := by rw [hex]; nlinarith
        have hswbig : 1000 ≤ sw := by
          simp only [MIN_WINDOW_WIDTH] at hacw500
          nlinarith
        rcases hw with ⟨hlt, hwa⟩ | ⟨hceq, hlast⟩
        · refine ⟨hey, heh, hxlow, ?_, fun _ => by omega⟩
          rw [hex, hwa]
          nlinarith
        · exact ⟨hey, heh, hxlow, by omega, fun _ => by omega⟩
    have hrowpw := (placeRowAux_spec sX sw g rowY rH acw k hg
      (by
        rcases lt_or_le k 2 with hk2 | hk2
        · exact Or.inl (by omega)
        · right
          have hkpos : (0 : Int) < k := by omega
          have hc2 : cols * (MIN_WINDOW_WIDTH + g) ≤ sw + g := hcols2 (by omega)
          have hkb : k * (MIN_WINDOW_WIDTH + g) ≤ sw + g := by
            have : k * (MIN_WINDOW_WIDTH + g) ≤ cols * (MIN_WINDOW_WIDTH + g) := by
              apply mul_le_mul_of_nonneg_right hkc
              simp [MIN_WINDOW_WIDTH]; omega
            omega
          have : MIN_WINDOW_WIDTH ≤ acw := by
            rw [hacw]
            apply le_jsFloorDiv hkpos
            simp only [MIN_WINDOW_WIDTH] at hkb ⊢
            nlinarith
          simp only [MIN_WINDOW_WIDTH] at this
          omega)
      k.toNat 0 ws le_rfl (by omega)).2
    have hih := ih (row + 1) (placeRowAux sX sw g rowY rH acw k k.toNat 0 ws).2 hks'
    constructor
    · intro e he
      rw [placeRows] at he
      simp only [List.mem_append] at he
      rcases he with he | he
      · obtain ⟨hey, heh, hx1, hx2, hsw⟩ := hrowfacts e he
        refine ⟨heh, ⟨row, le_rfl, ?_, hey⟩, hx1, hx2, hsw⟩
        simp only [List.length_cons]
        push_cast
        omega
      · obtain ⟨heh, ⟨ρ, hρ1, hρ2, hey⟩, hx1, hx2, hsw⟩ := hih.1 e he
        refine ⟨heh, ⟨ρ, by omega, ?_, hey⟩, hx1, hx2, hsw⟩
        simp only [List.length_cons] at hρ2 ⊢
        push_cast at hρ2 ⊢
        omega
    · rw [placeRows]
      rw [List.pairwise_append]
      refine ⟨?_, hih.2, ?_⟩
      · exact hrowpw.imp (fun h => Or.inl h)
      · intro a ha b hb
        obtain ⟨hay, hah, _, _, _⟩ := hrowfacts a ha
        obtain ⟨hbh, ⟨ρ, hρ1, hρ2, hby⟩, _, _, _⟩ := hih.1 b hb
        rcases le_or_lt rH 0 with hrH | hrH
        · right; right; omega
        · right; left
          rw [hay, hah, hby, hrowY]
          nlinarith
theorem windowsPerRowList_bounds (cols : Int) :
    ∀ (L : Nat) (rem : Int), 0 ≤ rem → rem ≤ (L : Int) * cols →
      ∀ k ∈ windowsPerRowList L rem, 0 ≤ k ∧ k ≤ cols := by
  intro L
  induction L with
  | zero => intro rem _ _ k hk; simp [windowsPerRowList] at hk
  | succ n ih =>
    intro rem h0 hle k hk
    have hb : (0 : Int) < (n : Int) + 1 := by positivity
    have step : windowsPerRowList (n + 1) rem =
        jsCeilDiv rem ((n : Int) + 1) ::
          windowsPerRowList n (rem - jsCeilDiv rem ((n : Int) + 1)) := rfl
    rw [step] at hk
    have hk0 : 0 ≤ jsCeilDiv rem ((n : Int) + 1) := jsCeilDiv_nonneg h0 hb
    have hkr : jsCeilDiv rem ((n : Int) + 1) ≤ rem := jsCeilDiv_le_self h0 (by omega)
    have hkc : jsCeilDiv rem ((n : Int) + 1) ≤ cols := by
      rw [jsCeilDiv_le_iff hb]
      push_cast at hle
      linarith
    rcases List.mem_cons.mp hk with rfl | hk'
    · exact ⟨hk0, hkc⟩
    · have hcons : rem ≤ ((n : Int) + 1) * jsCeilDiv rem ((n : Int) + 1) :=
        le_mul_jsCeilDiv rem hb
      refine ih (rem - jsCeilDiv rem ((n : Int) + 1)) (by omega) ?_ k hk'
      nlinarith
theorem finalMasterWidthFrom_le (wa : MetaRectangle) (g sc mw0 : Int) :
    finalMasterWidthFrom wa g sc mw0 ≤ mw0 :=
  shrinkMasterWidth_le wa.width wa.height g sc 20 mw0

theorem finalMasterWidthFrom_cases (wa : MetaRectangle) (g sc mw0 : Int) :
    finalMasterWidthFrom wa g sc mw0 = mw0 ∨
      MIN_MASTER_WIDTH ≤ finalMasterWidthFrom wa g sc mw0 :=
  shrinkMasterWidth_cases wa.width wa.height g sc 20 mw0

theorem masterEntry_contained {W : Type} (w0 : W) (wa : MetaRectangle) (g mwf : Int)
    (hg : 0 ≤ g) (hup : 1 ≤ mwf → mwf ≤ wa.width - g * 3 - 1) :
    entryContained wa (⟨w0, wa.x + g, wa.y + g, mwf, wa.height - g * 2⟩ : LayoutEntry W) := by
  intro p hp
  obtain ⟨h1, h2, h3, h4⟩ := hp
  simp only at h1 h2 h3 h4
  have hmw1 : 1 ≤ mwf := by omega
  have := hup hmw1
  exact ⟨by omega, by omega, by omega, by omega⟩

theorem calcFrom_nonoverlap_contained {W : Type} (w0 w1 : W) (rest : List W)
    (wa : MetaRectangle) (g mw0 : Int) (hg : 0 ≤ g)
    (hmw0nn : 0 ≤ wa.width - g * 3 → 0 ≤ mw0)
    (hmw0lt : 1 ≤ mw0 → mw0 ≤ wa.width - g * 3 - 1)
    (hswn : wa.width - g * 3 < 0 → wa.width - g * 3 - mw0 ≤ 0) :
    (calculateMasterStackLayoutFrom (w0 :: w1 :: rest) wa g mw0).entries.Pairwise
      entryDisjoint ∧
    ∀ e ∈ (calculateMasterStackLayoutFrom (w0 :: w1 :: rest) wa g mw0).entries,
      entryContained wa e := by
  have hmwle := finalMasterWidthFrom_le wa g ((w1 :: rest).length : Int) mw0
  have hmwcases := finalMasterWidthFrom_cases wa g ((w1 :: rest).length : Int) mw0
  simp only [calculateMasterStackLayoutFrom]
  set mwf := finalMasterWidthFrom wa g ((w1 :: rest).length : Int) mw0 with hmwfdef
  have hup : 1 ≤ mwf → mwf ≤ wa.width - g * 3 - 1 := by
    intro h1
    have : 1 ≤ mw0 := by omega
    have := hmw0lt this
    omega
  have hswpos : 0 < stackWidthOf wa.width g mwf → 0 ≤ mwf := by
    intro hsw
    simp only [stackWidthOf] at hsw
    rcases hmwcases with heq | h500
    · rcases le_or_lt 0 (wa.width - g * 3) with ha | ha
      · rw [heq]; exact hmw0nn ha
      · have := hswn ha
        omega
    · simp only [MIN_MASTER_WIDTH] at h500
      omega
  set cut :=
    if ((w1 :: rest).length : Int) > layoutCapacityFrom wa g ((w1 :: rest).length : Int) mw0
    then jsSliceIndex (w1 :: rest).length
        (layoutCapacityFrom wa g ((w1 :: rest).length : Int) mw0)
    else (w1 :: rest).length with hcutdef
  split
  · -- no tileable stack windows: only the master entry
    constructor
    · exact List.pairwise_singleton _ _
    · intro e he
      rcases List.mem_singleton.mp he with rfl
      exact masterEntry_contained w0 wa g mwf hg hup
  · rename_i hlen
    set sw := stackWidthOf wa.width g mwf with hswdef
    set cols := maxColumnsOf sw g with hcolsdef
    have hcols1 : 1 ≤ cols := maxColumnsOf_pos sw g
    have hcols2 : 2 ≤ cols → cols * (MIN_WINDOW_WIDTH + g) ≤ sw + g := by
      intro h2
      have hfd : cols = jsFloorDiv (sw + g) (MIN_WINDOW_WIDTH + g) := by
        rcases max_choice 1 (jsFloorDiv (sw + g) (MIN_WINDOW_WIDTH + g)) with hmc | hmc
        · rw [hcolsdef, maxColumnsOf] at h2 ⊢
          omega
        · rw [hcolsdef, maxColumnsOf]
          exact hmc
      have hpos : (0 : Int) < MIN_WINDOW_WIDTH + g := by
        simp only [MIN_WINDOW_WIDTH]; omega
      have := jsFloorDiv_mul_le (sw + g) hpos
      rw [hfd]
      linarith [this]
    -- facts about the tileable stack
    set tileable := (w1 :: rest).take cut with htileable
    have htc1 : 1 ≤ (tileable.length : Int) := by
      have : tileable.length ≠ 0 := hlen
      omega
    set tcount := (tileable.length : Int) with htcount
    set nR := numRowsOf tcount cols with hnRdef
    have hnR1 : 1 ≤ nR := jsCeilDiv_pos htc1 (by omega)
    set rh := rowHeightOf wa.height g nR with hrhdef
    have hrow_mul : nR * rh ≤ wa.height - g * (nR + 1) := by
      rw [hrhdef, rowHeightOf]
      exact jsFloorDiv_mul_le _ (by omega)
    have hwprb : ∀ k ∈ windowsPerRowList nR.toNat tcount, 0 ≤ k ∧ k ≤ cols := by
      apply windowsPerRowList_bounds cols nR.toNat tcount (by omega)
      have hmul := le_mul_jsCeilDiv tcount (show (0 : Int) < cols by omega)
      have : ((nR.toNat : Nat) : Int) = nR := Int.toNat_of_nonneg (by omega)
      rw [this]
      rw [hnRdef, numRowsOf] at *
      nlinarith
    have hspec := placeRows_spec wa.y (wa.x + g * 2 + mwf) sw g rh cols hg hcols1 hcols2
      (windowsPerRowList nR.toNat tcount) 0 tileable hwprb
    have hwprlen : ((windowsPerRowList nR.toNat tcount).length : Int) = nR := by
      rw [windowsPerRowList_length]
      exact Int.toNat_of_nonneg (by omega)
    constructor
    · rw [List.pairwise_cons]
      constructor
      · intro b hb
        obtain ⟨_, _, hbx, _, _⟩ := hspec.1 b hb
        apply sepRel_entryDisjoint
        left
        simp only
        omega
      · exact hspec.2.imp sepRel_entryDisjoint
    · intro e he
      rcases List.mem_cons.mp he with rfl | he
      · exact masterEntry_contained w0 wa g mwf hg hup
      · obtain ⟨heh, ⟨ρ, hρ0, hρlt, hey⟩, hxlow, hxhigh, hswp⟩ := hspec.1 e he
        rw [hwprlen] at hρlt
        intro p hp
        obtain ⟨h1, h2, h3, h4⟩ := hp
        have hew : 0 < e.w := by omega
        have hsw0 : 0 < sw := hswp hew
        have hmwf0 : 0 ≤ mwf := hswpos hsw0
        have heh' : 0 < e.h := by omega
        have hrh0 : 0 < rh := by omega
        have hswval : sw = wa.width - g * 3 - mwf := by rw [hswdef, stackWidthOf]
        constructor
        · -- wa.x ≤ p.1
          have : wa.x ≤ wa.x + g * 2 + mwf := by omega
          omega
        constructor
        · -- p.1 < wa.x + wa.width
          have : e.x + e.w ≤ wa.x + g * 2 + mwf + sw := hxhigh
          omega
        constructor
        · -- wa.y ≤ p.2
          have hρy : 0 ≤ ρ * (rh + g) := mul_nonneg hρ0 (by omega)
          omega
        · -- p.2 < wa.y + wa.height
          have hρle : ρ ≤ nR - 1 := by omega
          have hmono : ρ * (rh + g) ≤ (nR - 1) * (rh + g) := by
            apply mul_le_mul_of_nonneg_right hρle (by omega)
          nlinarith

/-- **C4** — Non-overlap and containment: for every non-empty input
list, every work area, every master ratio in `(0,1)` and every gap
`g ≥ 0`, the rectangles of `calculateMasterStackLayout`'s entries are
pairwise non-overlapping (as half-open integer boxes) and each is
contained within the work area. -/
theorem layout_nonoverlap_contained {W : Type} (windows : List W)
    (wa : MetaRectangle) (r : ℚ) (g : Int)
    (hne : windows ≠ []) (hr0 : 0 < r) (hr1 : r < 1) (hg : 0 ≤ g) :
    (calculateMasterStackLayout windows wa r g).entries.Pairwise entryDisjoint ∧
    ∀ e ∈ (calculateMasterStackLayout windows wa r g).entries, entryContained wa e := by
  match windows with
  | [] => exact absurd rfl hne
  | [w] =>
    constructor
    · exact List.pairwise_singleton _ _
    · intro e he
      simp only [calculateMasterStackLayout, calculateMasterStackLayoutFrom,
        List.mem_singleton] at he
      subst he
      intro p hp
      obtain ⟨h1, h2, h3, h4⟩ := hp
      simp only at h1 h2 h3 h4
      exact ⟨by omega, by omega, by omega, by omega⟩
  | w0 :: w1 :: rest =>
    have hmw0nn : 0 ≤ wa.width - g * 3 → 0 ≤ initialMasterWidth wa.width g r :=
      fun ha => initialMasterWidth_nonneg ha hr0
    have hmw0lt : 1 ≤ initialMasterWidth wa.width g r →
        initialMasterWidth wa.width g r ≤ wa.width - g * 3 - 1 := by
      intro h1
      unfold initialMasterWidth at h1
      have hfl := Int.le_floor.mp h1
      have ha : 0 < wa.width - g * 3 := by
        by_contra hc
        push_neg at hc
        have hcq : ((wa.width - g * 3 : Int) : ℚ) ≤ 0 := by exact_mod_cast hc
        have hle : ((wa.width - g * 3 : Int) : ℚ) * r ≤ 0 := by nlinarith
        have : ((1 : Int) : ℚ) ≤ 0 := le_trans hfl hle
        norm_num at this
      have := initialMasterWidth_lt ha hr1
      omega
    have hswn : wa.width - g * 3 < 0 →
        wa.width - g * 3 - initialMasterWidth wa.width g r ≤ 0 :=
      fun ha => stackWidth_nonpos_of_neg ha hr1
    exact calcFrom_nonoverlap_contained w0 w1 rest wa g _ hg hmw0nn hmw0lt hswn

/-- Witness for `layout_nonoverlap_contained` at a concrete input. -/
theorem layout_nonoverlap_contained_witness :
    (calculateMasterStackLayout [5, 6, 7] ⟨0, 0, 1366, 768⟩ (1/2) 8 :
        LayoutResult Nat).entries.Pairwise entryDisjoint ∧
    ∀ e ∈ (calculateMasterStackLayout [5, 6, 7] ⟨0, 0, 1366, 768⟩ (1/2) 8 :
        LayoutResult Nat).entries, entryContained ⟨0, 0, 1366, 768⟩ e :=
  layout_nonoverlap_contained [5, 6, 7] ⟨0, 0, 1366, 768⟩ (1/2) 8 (by decide)
    (by norm_num) (by norm_num) (by norm_num)

/-- **C3** amended — Overflow policy, restricted to a nonnegative
capacity: with at least 2 input windows, if
`capacity = maxRows × columnsPerRow` is nonnegative and the stack count
exceeds it, then exactly `stackCount − capacity` windows are returned in
`skippedWindows`, they are exactly the tail (oldest) suffix of the stack
ordering in order, they receive no geometry, and exactly `capacity` stack
entries plus the master are placed.  (The unamended claim fails when the
computed capacity is negative, because the `slice` calls then clamp the
index — see `overflow_count_counterexample`.) -/
theorem overflow_policy_amended {W : Type} (w0 w1 : W) (rest : List W)
    (wa : MetaRectangle) (r : ℚ) (g : Int)
    (hcap0 : 0 ≤ layoutCapacity wa r g ((w1 :: rest).length : Int))
    (hover : layoutCapacity wa r g ((w1 :: rest).length : Int) <
      ((w1 :: rest).length : Int)) :
    (calculateMasterStackLayout (w0 :: w1 :: rest) wa r g).skippedWindows =
      (w1 :: rest).drop (layoutCapacity wa r g ((w1 :: rest).length : Int)).toNat ∧
    ((calculateMasterStackLayout (w0 :: w1 :: rest) wa r g).skippedWindows.length : Int) =
      ((w1 :: rest).length : Int) - layoutCapacity wa r g ((w1 :: rest).length : Int) ∧
    ((calculateMasterStackLayout (w0 :: w1 :: rest) wa r g).entries.length : Int) =
      layoutCapacity wa r g ((w1 :: rest).length : Int) + 1 ∧
    (calculateMasterStackLayout (w0 :: w1 :: rest) wa r g).entries.map (·.window) =
      w0 :: (w1 :: rest).take (layoutCapacity wa r g ((w1 :: rest).length : Int)).toNat := by
  unfold layoutCapacity at hcap0 hover ⊢
  have hp := calcFrom_partition w0 w1 rest wa g (initialMasterWidth wa.width g r)
  unfold calculateMasterStackLayout
  rw [if_pos hover] at hp
  have hcut : jsSliceIndex (w1 :: rest).length
      (layoutCapacityFrom wa g ((w1 :: rest).length : Int)
        (initialMasterWidth wa.width g r)) =
      (layoutCapacityFrom wa g ((w1 :: rest).length : Int)
        (initialMasterWidth wa.width g r)).toNat := by
    unfold jsSliceIndex
    rw [if_neg (not_lt.mpr hcap0)]
    omega
  rw [hcut] at hp
  refine ⟨hp.2.2, ?_, ?_, hp.2.1⟩
  · rw [hp.2.2, List.length_drop]
    omega
  · have hmaplen := congrArg List.length hp.2.1
    rw [List.length_map, List.length_cons, List.length_take] at hmaplen
    rw [hmaplen]
    omega

/-- Witness for `overflow_policy_amended` at a concrete input. -/
theorem overflow_policy_amended_witness :
    (calculateMasterStackLayout [0, 1, 2, 3, 4, 5, 6, 7, 8, 9] ⟨0, 0, 1920, 1080⟩
        (1/2) 10 : LayoutResult Nat).skippedWindows = [7, 8, 9] ∧
    ((calculateMasterStackLayout [0, 1, 2, 3, 4, 5, 6, 7, 8, 9] ⟨0, 0, 1920, 1080⟩
        (1/2) 10 : LayoutResult Nat).entries.length : Int) = 7 := by
  have hmw : initialMasterWidth 1920 10 (1/2) = 945 := by
    unfold initialMasterWidth; norm_num
  have hcap : layoutCapacity ⟨0, 0, 1920, 1080⟩ (1/2) 10 9 = 6 := by
    unfold layoutCapacity
    rw [show (⟨0, 0, 1920, 1080⟩ : MetaRectangle).width = 1920 from rfl, hmw]
    decide
  have happ := overflow_policy_amended (0 : Nat) 1 [2, 3, 4, 5, 6, 7, 8, 9]
    ⟨0, 0, 1920, 1080⟩ (1/2) 10
    (by rw [show (([1,2,3,4,5,6,7,8,9] : List Nat).length : Int) = 9 from rfl, hcap]; norm_num)
    (by rw [show (([1,2,3,4,5,6,7,8,9] : List Nat).length : Int) = 9 from rfl, hcap]; norm_num)
  rw [show (([1,2,3,4,5,6,7,8,9] : List Nat).length : Int) = 9 from rfl, hcap] at happ
  refine ⟨?_, ?_⟩
  · rw [happ.1]; rfl
  · rw [happ.2.2.1]; norm_num


/-- **C9** — After the terminal Tiled→Floating transition (the
`tilingEnabled` branch of `toggleSlab`) completes, the deferred
new-window settle timer is cancelled on every path: the resulting
`pendingNewWindowTimeoutId` is `null`, and any previously pending timeout
source has been removed from the live source set. -/
theorem toggleSlabDisable_cancels_pending (s : SlabLifecycleState)
    (henabled : s.tilingEnabled = true) :
    (toggleSlabDisable s).pendingNewWindowTimeoutId = none ∧
    ∀ tid, s.pendingNewWindowTimeoutId = some tid →
      tid ∉ (toggleSlabDisable s).activeTimeoutSources := by
  cases h : s.pendingNewWindowTimeoutId with
  | none =>
    constructor
    · simp [toggleSlabDisable, cleanupDragManager, cancelDrag,
        disconnectAllWindowSignals, h]
    · intro tid htid
      simp at htid
  | some tid0 =>
    constructor
    · simp [toggleSlabDisable, cleanupDragManager, cancelDrag,
        disconnectAllWindowSignals, h]
    · intro tid htid
      obtain rfl : tid0 = tid := by injection htid
      simp [toggleSlabDisable, cleanupDragManager, cancelDrag,
        disconnectAllWindowSignals, h, List.mem_filter]

/-- Witness for `toggleSlabDisable_cancels_pending` at a concrete state. -/
theorem toggleSlabDisable_cancels_pending_witness :
    (toggleSlabDisable
      ⟨true, [], some 3, [(1, [2])], some 42, some ⟨7, 0, [5]⟩,
        [42, 99]⟩).pendingNewWindowTimeoutId = none ∧
    ∀ tid,
      (⟨true, [], some 3, [(1, [2])], some 42, some ⟨7, 0, [5]⟩, [42, 99]⟩ :
        SlabLifecycleState).pendingNewWindowTimeoutId = some tid →
      tid ∉ (toggleSlabDisable
        ⟨true, [], some 3, [(1, [2])], some 42, some ⟨7, 0, [5]⟩,
          [42, 99]⟩).activeTimeoutSources :=
  toggleSlabDisable_cancels_pending _ rfl

theorem list_swap_swap {α : Type} [Inhabited α] (l : List α) (i j : Nat)
    (hi : i < l.length) (hj : j < l.length) (hij : i ≠ j) :
    (((l.set i (l.getD j default)).set j (l.getD i default)).set i
        (((l.set i (l.getD j default)).set j (l.getD i default)).getD j default)).set j
      (((l.set i (l.getD j default)).set j (l.getD i default)).getD i default) = l := by
  apply List.ext_getElem?
  intro n
  simp only [List.getD_eq_getElem?_getD, List.getElem?_set, List.length_set]
  rcases eq_or_ne i n with hin | hin <;> rcases eq_or_ne j n with hjn | hjn <;>
    simp_all [List.getElem?_eq_getElem hi, List.getElem?_eq_getElem hj]
  rw [if_neg fun hc => hin hc.symm]
  rfl

/-- **C8** — Drag swap is an involution: for in-range distinct indices
`i`, `j` into the tracked tiled-window order (with layout positions
tracked for every tiled window), `swapWindowPositions` does not fall back
to a re-tile, leaves the layout position list unchanged, and applying it
twice restores both the tracked window order and the
window-to-rectangle assignment. -/
theorem swapWindowPositions_involutive {W : Type} [Inhabited W] (seq : W → Nat)
    (s : DragTrackingState W) (i j : Int)
    (hij : i ≠ j) (hi0 : 0 ≤ i) (hj0 : 0 ≤ j)
    (hi : i < (s.currentTiledWindows.length : Int))
    (hj : j < (s.currentTiledWindows.length : Int))
    (hpos : s.currentLayoutPositions.length = s.currentTiledWindows.length) :
    (swapWindowPositions seq s i j).2 = false ∧
    (swapWindowPositions seq s i j).1.currentLayoutPositions =
      s.currentLayoutPositions ∧
    (swapWindowPositions seq (swapWindowPositions seq s i j).1 i j).1.currentTiledWindows =
      s.currentTiledWindows ∧
    (swapWindowPositions seq (swapWindowPositions seq s i j).1 i j).1.currentLayoutPositions =
      s.currentLayoutPositions ∧
    (swapWindowPositions seq
          (swapWindowPositions seq s i j).1 i j).1.currentTiledWindows.zip
        (swapWindowPositions seq
          (swapWindowPositions seq s i j).1 i j).1.currentLayoutPositions =
      s.currentTiledWindows.zip s.currentLayoutPositions := by
  have hguard : ¬(i < 0 ∨ j < 0) := by omega
  have hguard2 : ¬((s.currentTiledWindows.length : Int) ≤ i ∨
      (s.currentTiledWindows.length : Int) ≤ j) := by omega
  have hguard3 : ¬((s.currentLayoutPositions.length : Int) ≤ i ∨
      (s.currentLayoutPositions.length : Int) ≤ j) := by
    rw [hpos]; omega
  have hstep1 : swapWindowPositions seq s i j =
      (⟨(s.currentTiledWindows.set i.toNat
            (s.currentTiledWindows.getD j.toNat default)).set j.toNat
          (s.currentTiledWindows.getD i.toNat default),
        s.currentLayoutPositions,
        if i = 0 ∨ j = 0 then
          some (seq (((s.currentTiledWindows.set i.toNat
              (s.currentTiledWindows.getD j.toNat default)).set j.toNat
            (s.currentTiledWindows.getD i.toNat default)).getD 0 default))
        else s.currentMasterWindowId⟩, false) := by
    unfold swapWindowPositions
    rw [if_neg hij, if_neg hguard, if_neg hguard2, if_neg hguard3]
  set l1 := (s.currentTiledWindows.set i.toNat
      (s.currentTiledWindows.getD j.toNat default)).set j.toNat
    (s.currentTiledWindows.getD i.toNat default) with hl1
  have hlen1 : l1.length = s.currentTiledWindows.length := by simp [hl1]
  have hguard2' : ¬((l1.length : Int) ≤ i ∨ (l1.length : Int) ≤ j) := by
    rw [hlen1]; omega
  have hstep2 : ∀ m : Option Nat,
      swapWindowPositions seq (⟨l1, s.currentLayoutPositions, m⟩ : DragTrackingState W) i j =
      (⟨(l1.set i.toNat (l1.getD j.toNat default)).set j.toNat (l1.getD i.toNat default),
        s.currentLayoutPositions,
        if i = 0 ∨ j = 0 then
          some (seq (((l1.set i.toNat (l1.getD j.toNat default)).set j.toNat
            (l1.getD i.toNat default)).getD 0 default))
        else m⟩, false) := by
    intro m
    unfold swapWindowPositions
    rw [if_neg hij, if_neg hguard, if_neg hguard2', if_neg hguard3]
  have hback : (l1.set i.toNat (l1.getD j.toNat default)).set j.toNat
      (l1.getD i.toNat default) = s.currentTiledWindows := by
    rw [hl1]
    apply list_swap_swap s.currentTiledWindows i.toNat j.toNat (by omega) (by omega) (by omega)
  rw [hstep1, hstep2, hback]
  exact ⟨rfl, rfl, rfl, rfl, rfl⟩

/-- Witness for `swapWindowPositions_involutive` at a concrete state. -/
theorem swapWindowPositions_involutive_witness :
    (swapWindowPositions (fun n => n)
      ⟨[10, 20, 30], [⟨0, 0, 5, 5⟩, ⟨6, 0, 5, 5⟩, ⟨0, 6, 5, 5⟩], some 10⟩ 0 2).2 = false ∧
    (swapWindowPositions (fun n => n)
      ⟨[10, 20, 30], [⟨0, 0, 5, 5⟩, ⟨6, 0, 5, 5⟩, ⟨0, 6, 5, 5⟩], some 10⟩
      0 2).1.currentLayoutPositions =
      [⟨0, 0, 5, 5⟩, ⟨6, 0, 5, 5⟩, ⟨0, 6, 5, 5⟩] ∧
    (swapWindowPositions (fun n => n)
      (swapWindowPositions (fun n => n)
        ⟨[10, 20, 30], [⟨0, 0, 5, 5⟩, ⟨6, 0, 5, 5⟩, ⟨0, 6, 5, 5⟩], some 10⟩ 0 2).1
      0 2).1.currentTiledWindows = [10, 20, 30] ∧
    (swapWindowPositions (fun n => n)
      (swapWindowPositions (fun n => n)
        ⟨[10, 20, 30], [⟨0, 0, 5, 5⟩, ⟨6, 0, 5, 5⟩, ⟨0, 6, 5, 5⟩], some 10⟩ 0 2).1
      0 2).1.currentLayoutPositions =
      [⟨0, 0, 5, 5⟩, ⟨6, 0, 5, 5⟩, ⟨0, 6, 5, 5⟩] ∧
    (swapWindowPositions (fun n => n)
      (swapWindowPositions (fun n => n)
        ⟨[10, 20, 30], [⟨0, 0, 5, 5⟩, ⟨6, 0, 5, 5⟩, ⟨0, 6, 5, 5⟩], some 10⟩ 0 2).1
      0 2).1.currentTiledWindows.zip
      (swapWindowPositions (fun n => n)
        (swapWindowPositions (fun n => n)
          ⟨[10, 20, 30], [⟨0, 0, 5, 5⟩, ⟨6, 0, 5, 5⟩, ⟨0, 6, 5, 5⟩], some 10⟩ 0 2).1
        0 2).1.currentLayoutPositions =
      ([10, 20, 30] : List Nat).zip [⟨0, 0, 5, 5⟩, ⟨6, 0, 5, 5⟩, ⟨0, 6, 5, 5⟩] :=
  swapWindowPositions_involutive (fun n => n)
    ⟨[10, 20, 30], [⟨0, 0, 5, 5⟩, ⟨6, 0, 5, 5⟩, ⟨0, 6, 5, 5⟩], some 10⟩ 0 2
    (by decide) (by decide) (by decide) (by decide) (by decide) (by decide)



theorem find_head_of_any {l : List WinInfo} {m : Nat}
    (h : (l.any fun w => w.id == m) = true) :
    ∃ w, (l.find? fun w => w.id == m) = some w ∧ w.id = m := by
  obtain ⟨w, hw, hwid⟩ := List.any_eq_true.mp h
  have hsome : (l.find? fun w => w.id == m).isSome :=
    List.find?_isSome.mpr ⟨w, hw, hwid⟩
  obtain ⟨w', hw'⟩ := Option.isSome_iff_exists.mp hsome
  exact ⟨w', hw', by simpa using List.find?_some hw'⟩

theorem find_none_of_not_any {l : List WinInfo} {m : Nat}
    (h : (l.any fun w => w.id == m) = false) :
    (l.find? fun w => w.id == m) = none := by
  rw [List.find?_eq_none]
  intro w hw hc
  have hT : (l.any fun w => w.id == m) = true := List.any_eq_true.mpr ⟨w, hw, hc⟩
  rw [h] at hT
  exact Bool.false_ne_true hT

/-- **C5** — Master selection priority of `getTileableWindows`: the head
of the returned list is the new window whenever one is supplied;
otherwise the window with id `currentMasterId` whenever that id is
supplied and still present in the filtered candidate set; otherwise the
focused window when it is in the candidate set; otherwise the candidate
list is returned unchanged. -/
theorem getTileableWindows_master_priority
    (activeWorkspace : Int) (actors : List WinInfo) (focusedWindow : Option WinInfo)
    (monitor : Int) (newWindow : Option WinInfo) (currentMasterId : Option Nat) :
    (∀ nw, newWindow = some nw →
      (getTileableWindows activeWorkspace actors focusedWindow monitor newWindow
          currentMasterId).head?.map (·.id) = some nw.id) ∧
    (newWindow = none → ∀ cm, currentMasterId = some cm →
      ((actors.filter (isTileableCandidate activeWorkspace monitor none)).any
          fun w => w.id == cm) = true →
      (getTileableWindows activeWorkspace actors focusedWindow monitor newWindow
          currentMasterId).head?.map (·.id) = some cm) ∧
    (newWindow = none →
      (currentMasterId = none ∨ ∀ cm, currentMasterId = some cm →
        ((actors.filter (isTileableCandidate activeWorkspace monitor none)).any
            fun w => w.id == cm) = false) →
      ∀ f, focusedWindow = some f →
      ((actors.filter (isTileableCandidate activeWorkspace monitor none)).any
          fun w => w.id == f.id) = true →
      (getTileableWindows activeWorkspace actors focusedWindow monitor newWindow
          currentMasterId).head?.map (·.id) = some f.id) ∧
    (newWindow = none →
      (currentMasterId = none ∨ ∀ cm, currentMasterId = some cm →
        ((actors.filter (isTileableCandidate activeWorkspace monitor none)).any
            fun w => w.id == cm) = false) →
      (focusedWindow = none ∨ ∀ f, focusedWindow = some f →
        ((actors.filter (isTileableCandidate activeWorkspace monitor none)).any
            fun w => w.id == f.id) = false) →
      getTileableWindows activeWorkspace actors focusedWindow monitor newWindow
          currentMasterId =
        actors.filter (isTileableCandidate activeWorkspace monitor none)) := by
  refine ⟨?_, ?_, ?_, ?_⟩
  · -- priority 1: newWindow
    rintro nw rfl
    unfold getTileableWindows
    by_cases hin : ((actors.filter
        (isTileableCandidate activeWorkspace monitor (some nw))).any
        fun w => w.id == nw.id) = true
    · obtain ⟨w, hw, hwid⟩ := find_head_of_any hin
      simp [hin, hw, hwid]
    · simp only [Bool.not_eq_true] at hin
      have hfind : (((nw : WinInfo) :: actors.filter
          (isTileableCandidate activeWorkspace monitor (some nw))).find?
          fun w => w.id == nw.id) = some nw := by
        rw [List.find?_cons_of_pos]
        simp
      simp [hin, hfind]
  · -- priority 2: currentMasterId still in the candidate set
    rintro rfl cm rfl hany
    unfold getTileableWindows
    obtain ⟨w, hw, hwid⟩ := find_head_of_any hany
    simp [hany, hw, hwid]
  · -- priority 3: focused window
    rintro rfl hcm f rfl hany
    unfold getTileableWindows
    obtain ⟨w, hw, hwid⟩ := find_head_of_any hany
    cases currentMasterId with
    | none => simp [hw, hwid]
    | some cm =>
      have hfalse : ((actors.filter
          (isTileableCandidate activeWorkspace monitor none)).any
          fun w => w.id == cm) = false := by
        rcases hcm with h | hcm
        · exact absurd h (by simp)
        · exact hcm cm rfl
      simp [hfalse, hw, hwid]
  · -- priority 4: unchanged
    rintro rfl hcm hf
    unfold getTileableWindows
    have hmaster : ∀ cm, currentMasterId = some cm →
        ((actors.filter (isTileableCandidate activeWorkspace monitor none)).any
          fun w => w.id == cm) = false := by
      intro cm hcmEq
      rcases hcm with h | hcm
      · rw [hcmEq] at h; exact absurd h (by simp)
      · exact hcm cm hcmEq
    cases currentMasterId with
    | none =>
      cases focusedWindow with
      | none => rfl
      | some f =>
        rcases hf with h | hf
        · exact absurd h (by simp)
        · have := find_none_of_not_any (hf f rfl)
          simp [this]
    | some cm =>
      have hfalse := hmaster cm rfl
      cases focusedWindow with
      | none => simp [hfalse]
      | some f =>
        rcases hf with h | hf
        · exact absurd h (by simp)
        · have := find_none_of_not_any (hf f rfl)
          simp [hfalse, this]

/-- Witness for `getTileableWindows_master_priority`: with a new window
supplied it becomes the head of the result. -/
theorem getTileableWindows_master_priority_witness :
    (getTileableWindows 0
        [⟨1, 0, 0, 0, false, true, true, false⟩, ⟨2, 0, 0, 0, false, true, true, false⟩]
        (some ⟨1, 0, 0, 0, false, true, true, false⟩) 0
        (some ⟨2, 0, 0, 0, false, true, true, false⟩) (some 1)).head?.map (·.id) =
      some 2 ∧
    (getTileableWindows 0
        [⟨1, 0, 0, 0, false, true, true, false⟩, ⟨2, 0, 0, 0, false, true, true, false⟩]
        (some ⟨1, 0, 0, 0, false, true, true, false⟩) 0 none (some 1)).head?.map (·.id) =
      some 1 :=
  ⟨(getTileableWindows_master_priority 0
      [⟨1, 0, 0, 0, false, true, true, false⟩, ⟨2, 0, 0, 0, false, true, true, false⟩]
      (some ⟨1, 0, 0, 0, false, true, true, false⟩) 0
      (some ⟨2, 0, 0, 0, false, true, true, false⟩) (some 1)).1
      ⟨2, 0, 0, 0, false, true, true, false⟩ rfl,
   (getTileableWindows_master_priority 0
      [⟨1, 0, 0, 0, false, true, true, false⟩, ⟨2, 0, 0, 0, false, true, true, false⟩]
      (some ⟨1, 0, 0, 0, false, true, true, false⟩) 0 none (some 1)).2.1 rfl 1 rfl
      (by decide)⟩

theorem find_eq_none_of_any_false {β : Type} {p : β → Bool} {l : List β}
    (h : l.any p = false) : l.find? p = none := by
  rw [List.find?_eq_none]
  intro x hx hc
  have hT : l.any p = true := List.any_eq_true.mpr ⟨x, hx, hc⟩
  rw [h] at hT
  exact Bool.false_ne_true hT

theorem find_map_set_self {α : Type} (k : Nat) (v : α) :
    ∀ (m : List (Nat × α)), (m.any fun p => p.1 == k) = true →
      ((m.map fun p => if p.1 == k then (k, v) else p).find? fun p => p.1 == k) =
        some (k, v) := by
  intro m
  induction m with
  | nil => intro h; simp at h
  | cons p m' ih =>
    intro h
    by_cases hpk : (p.1 == k) = true
    · simp only [List.map_cons, if_pos hpk, List.find?_cons]
      simp
    · have hfalse : (p.1 == k) = false := by revert hpk; cases p.1 == k <;> simp
      simp only [List.map_cons, hfalse, Bool.false_eq_true, if_false, List.find?_cons]
      apply ih
      simp only [List.any_cons, hfalse] at h
      simpa using h

theorem mapGet_mapSet_self {α : Type} (m : List (Nat × α)) (k : Nat) (v : α) :
    mapGet (mapSet m k v) k = some v := by
  unfold mapSet mapGet
  by_cases hany : (m.any fun p => p.1 == k) = true
  · rw [if_pos hany, find_map_set_self k v m hany]
    rfl
  · have hfalse : (m.any fun p => p.1 == k) = false := by
      revert hany
      cases m.any fun p => p.1 == k <;> simp
    rw [if_neg hany, List.find?_append, find_eq_none_of_any_false hfalse]
    simp [List.find?_cons]

theorem find_map_set_ne {α : Type} (k k' : Nat) (v : α) (hkk : k' ≠ k) :
    ∀ (m : List (Nat × α)),
      ((m.map fun p => if p.1 == k then (k, v) else p).find? fun p => p.1 == k') =
        m.find? fun p => p.1 == k' := by
  have hne : ¬k = k' := fun h => hkk h.symm
  have hkk' : (k == k') = false := by simpa using hne
  intro m
  induction m with
  | nil => rfl
  | cons p m' ih =>
    by_cases hpk : (p.1 == k) = true
    · have hp1 : p.1 = k := by simpa using hpk
      have hpk' : (p.1 == k') = false := by rw [hp1]; exact hkk'
      simp only [List.map_cons, if_pos hpk, List.find?_cons, hkk', hpk']
      exact ih
    · have hfalse : (p.1 == k) = false := by revert hpk; cases p.1 == k <;> simp
      simp only [List.map_cons, hfalse, Bool.false_eq_true, if_false, List.find?_cons]
      cases hpk' : (p.1 == k') with
      | true => simp only [hpk']
      | false => simp only [hpk']; exact ih

theorem mapGet_mapSet_ne {α : Type} (m : List (Nat × α)) (k k' : Nat) (v : α)
    (hkk : k' ≠ k) : mapGet (mapSet m k v) k' = mapGet m k' := by
  have hne : ¬k = k' := fun h => hkk h.symm
  have hkk' : (k == k') = false := by simpa using hne
  unfold mapSet mapGet
  by_cases hany : (m.any fun p => p.1 == k) = true
  · rw [if_pos hany, find_map_set_ne k k' v hkk m]
  · rw [if_neg hany, List.find?_append]
    have hsingle : ([((k, v) : Nat × α)].find? fun p => p.1 == k') = none := by
      simp [List.find?_cons, hkk']
    rw [hsingle]
    simp

theorem mem_mapSet {α : Type} {m : List (Nat × α)} {k : Nat} {v : α} {q : Nat × α}
    (hq : q ∈ mapSet m k v) : q.1 = k ∨ q ∈ m := by
  unfold mapSet at hq
  by_cases hany : (m.any fun p => p.1 == k) = true
  · rw [if_pos hany] at hq
    obtain ⟨p, hp, hpq⟩ := List.mem_map.mp hq
    by_cases hpk : (p.1 == k) = true
    · rw [if_pos hpk] at hpq
      left
      rw [← hpq]
    · rw [if_neg hpk] at hpq
      right
      rw [← hpq]
      exact hp
  · rw [if_neg hany] at hq
    rcases List.mem_append.mp hq with h | h
    · right; exact h
    · left
      simp only [List.mem_singleton] at h
      rw [h]

theorem captureFloatingSnapshotAux_skip (id : Nat) :
    ∀ (ws : List (Nat × WinState)) (i : Int) (acc : FloatingSnapshot),
      id ∉ ws.map Prod.fst →
      mapGet (captureFloatingSnapshotAux ws i acc) id = mapGet acc id := by
  intro ws
  induction ws with
  | nil => intro i acc _; rfl
  | cons p ws' ih =>
    intro i acc hid
    obtain ⟨id0, st0⟩ := p
    simp only [List.map_cons, List.mem_cons] at hid
    push_neg at hid
    rw [captureFloatingSnapshotAux, ih (i + 1) _ hid.2,
        mapGet_mapSet_ne _ _ _ _ hid.1]

theorem captureFloatingSnapshotAux_get :
    ∀ (ws : List (Nat × WinState)) (i : Int) (acc : FloatingSnapshot)
      (id : Nat) (st : WinState) (n : Nat),
      (ws.map Prod.fst).Nodup →
      (∀ q ∈ acc, q.1 ∉ ws.map Prod.fst) →
      ws[n]? = some (id, st) →
      mapGet (captureFloatingSnapshotAux ws i acc) id =
        some (snapshotOfWindow st (i + n)) := by
  intro ws
  induction ws with
  | nil => intro i acc id st n _ _ h; simp at h
  | cons p ws' ih =>
    intro i acc id st n hnodup hacc hget
    obtain ⟨id0, st0⟩ := p
    simp only [List.map_cons, List.nodup_cons] at hnodup
    cases n with
    | zero =>
      simp only [List.getElem?_cons_zero, Option.some.injEq, Prod.mk.injEq] at hget
      obtain ⟨rfl, rfl⟩ := hget
      rw [captureFloatingSnapshotAux,
          captureFloatingSnapshotAux_skip _ ws' (i + 1) _ hnodup.1,
          mapGet_mapSet_self]
      norm_num
    | succ n' =>
      simp only [List.getElem?_cons_succ] at hget
      rw [captureFloatingSnapshotAux]
      rw [ih (i + 1) _ id st n' hnodup.2 ?_ hget]
      · congr 1
        push_cast
        ring
      · intro q hq
        rcases mem_mapSet hq with h | h
        · rw [h]; exact hnodup.1
        · intro hmem
          exact hacc q h (List.mem_cons_of_mem _ hmem)

theorem applyTrace_filter :
    ∀ (tr : List (Nat × WinOp)) (σ : Nat → WinState) (id : Nat),
      applyTrace σ tr id =
        (tr.filterMap fun pr => if pr.1 = id then some pr.2 else none).foldl
          applyWinOp (σ id) := by
  intro tr
  induction tr with
  | nil => intro σ id; rfl
  | cons p tr' ih =>
    intro σ id
    have hstep : applyTrace σ (p :: tr') =
        applyTrace (fun id' => if id' = p.1 then applyWinOp (σ id') p.2 else σ id') tr' :=
      rfl
    rw [hstep, ih]
    by_cases h : p.1 = id
    · have hsel : (if p.1 = id then some p.2 else none) = some p.2 := if_pos h
      simp only [List.filterMap_cons, hsel, List.foldl_cons, if_pos h.symm]
    · have hsel : (if p.1 = id then some p.2 else none) = none := if_neg h
      have hne : ¬id = p.1 := fun hc => h hc.symm
      simp only [List.filterMap_cons, hsel, if_neg hne]

theorem tagged_block_filter (k id : Nat) (l : List WinOp) :
    ((l.map fun op => (k, op)).filterMap
        fun pr : Nat × WinOp => if pr.1 = id then some pr.2 else none) =
      if k = id then l else [] := by
  induction l with
  | nil => simp
  | cons op l' ih =>
    by_cases h : k = id
    · have hsel : (if k = id then some op else none) = some op := if_pos h
      simp only [List.map_cons, List.filterMap_cons, hsel, ih, if_pos h]
    · have hsel : (if k = id then some op else none) = (none : Option WinOp) := if_neg h
      simp only [List.map_cons, List.filterMap_cons, hsel, ih, if_neg h]

theorem restore_flat_filter_nil (id : Nat) :
    ∀ (L : List ((Nat × WinState) × WindowSnapshot)),
      (∀ p ∈ L, p.1.1 ≠ id) →
      (((L.map fun p => (restoreOpsForWindow p.2).map fun op => (p.1.1, op)).flatten).filterMap
        fun pr : Nat × WinOp => if pr.1 = id then some pr.2 else none) = [] := by
  intro L
  induction L with
  | nil => intro _; rfl
  | cons p L' ih =>
    intro hkeys
    simp only [List.map_cons, List.flatten_cons, List.filterMap_append]
    rw [tagged_block_filter, if_neg (hkeys p (List.mem_cons_self _ _)),
        ih fun q hq => hkeys q (List.mem_cons_of_mem _ hq)]
    rfl

theorem restore_flat_filter (id : Nat) :
    ∀ (L : List ((Nat × WinState) × WindowSnapshot)),
      (L.map fun p => p.1.1).Nodup →
      ∀ q ∈ L, q.1.1 = id →
      (((L.map fun p => (restoreOpsForWindow p.2).map fun op => (p.1.1, op)).flatten).filterMap
        fun pr : Nat × WinOp => if pr.1 = id then some pr.2 else none) =
      restoreOpsForWindow q.2 := by
  intro L
  induction L with
  | nil => intro _ q hq; exact absurd hq (List.not_mem_nil q)
  | cons p L' ih =>
    intro hnodup q hq hqid
    simp only [List.map_cons, List.nodup_cons] at hnodup
    simp only [List.map_cons, List.flatten_cons, List.filterMap_append]
    rcases List.mem_cons.mp hq with rfl | hq'
    · rw [tagged_block_filter, if_pos hqid]
      rw [restore_flat_filter_nil id L' ?_]
      · rw [List.append_nil]
      · intro p' hp' hpid
        apply hnodup.1
        rw [hqid, ← hpid]
        exact List.mem_map.mpr ⟨p', hp', rfl⟩
    · have hpne : p.1.1 ≠ id := by
        intro hpid
        apply hnodup.1
        rw [hpid, ← hqid]
        exact List.mem_map.mpr ⟨q, hq', rfl⟩
      rw [tagged_block_filter, if_neg hpne, ih hnodup.2 q hq' hqid]
      rfl

theorem insertByStackIndex_perm (p : (Nat × WinState) × WindowSnapshot) :
    ∀ (l : List ((Nat × WinState) × WindowSnapshot)),
      (insertByStackIndex p l).Perm (p :: l) := by
  intro l
  induction l with
  | nil => exact List.Perm.refl _
  | cons q qs ih =>
    rw [insertByStackIndex]
    split
    · exact List.Perm.refl _
    · exact (ih.cons q).trans (List.Perm.swap p q qs)

theorem sortByStackIndex_perm :
    ∀ (l : List ((Nat × WinState) × WindowSnapshot)),
      (sortByStackIndex l).Perm l := by
  intro l
  induction l with
  | nil => exact List.Perm.refl _
  | cons p ps ih =>
    rw [sortByStackIndex]
    exact (insertByStackIndex_perm p _).trans (ih.cons p)

theorem foldl_raise_id (s : WinState) :
    ∀ (t : List WinOp), (∀ op ∈ t, op = WinOp.raise) → t.foldl applyWinOp s = s := by
  intro t
  induction t with
  | nil => intro _; rfl
  | cons op t' ih =>
    intro h
    rw [List.foldl_cons, h op (List.mem_cons_self _ _)]
    exact ih fun op' hop' => h op' (List.mem_cons_of_mem _ hop')

theorem filterMap_keys_sublist (snap : FloatingSnapshot) :
    ∀ (l : List (Nat × WinState)),
      ((l.filterMap fun w => (mapGet snap w.1).map fun s => (w, s)).map
          fun p => p.1.1).Sublist (l.map Prod.fst) := by
  intro l
  induction l with
  | nil => exact List.Sublist.refl _
  | cons w l' ih =>
    cases hw : (mapGet snap w.1).map fun s => (w, s) with
    | none =>
      simp only [List.filterMap_cons, hw, List.map_cons]
      exact ih.cons _
    | some p =>
      simp only [List.filterMap_cons, hw, List.map_cons]
      obtain ⟨s, _, rfl⟩ := Option.map_eq_some'.mp hw
      exact ih.cons₂ _

theorem restore_trace_spec (snap : FloatingSnapshot) (W : List (Nat × WinState))
    (id : Nat) (cur : WinState) (s0 : WindowSnapshot)
    (hnodupW : (W.map Prod.fst).Nodup)
    (hmem : (id, cur) ∈ W)
    (hget : mapGet snap id = some s0) :
    ∃ t, ((restoreFloatingPositions snap W).filterMap
        fun pr : Nat × WinOp => if pr.1 = id then some pr.2 else none) =
      restoreOpsForWindow s0 ++ t ∧ ∀ op ∈ t, op = WinOp.raise := by
  have hmemWS : ((id, cur), s0) ∈
      W.filterMap fun w => (mapGet snap w.1).map fun s => (w, s) :=
    List.mem_filterMap.mpr ⟨(id, cur), hmem, by simp [hget]⟩
  have hlen : ¬(W.filterMap fun w => (mapGet snap w.1).map fun s => (w, s)).length = 0 := by
    intro h0
    rw [List.length_eq_zero] at h0
    rw [h0] at hmemWS
    exact List.not_mem_nil _ hmemWS
  have hperm := sortByStackIndex_perm
    (W.filterMap fun w => (mapGet snap w.1).map fun s => (w, s))
  have hmemS : ((id, cur), s0) ∈ sortByStackIndex
      (W.filterMap fun w => (mapGet snap w.1).map fun s => (w, s)) :=
    hperm.mem_iff.mpr hmemWS
  have hnodupS : ((sortByStackIndex
      (W.filterMap fun w => (mapGet snap w.1).map fun s => (w, s))).map
        fun p => p.1.1).Nodup := by
    have h1 := filterMap_keys_sublist snap W
    exact ((hperm.map fun p => p.1.1).nodup_iff).mpr (h1.nodup hnodupW)
  simp only [restoreFloatingPositions]
  rw [if_neg hlen, List.filterMap_append,
      restore_flat_filter id _ hnodupS _ hmemS rfl]
  refine ⟨_, rfl, ?_⟩
  intro op hop
  obtain ⟨pr, hpr, hsel⟩ := List.mem_filterMap.mp hop
  have hop2 : op = pr.2 := by
    by_cases h : pr.1 = id
    · rw [if_pos h] at hsel
      exact (Option.some.inj hsel).symm
    · rw [if_neg h] at hsel
      cases hsel
  rw [hop2]
  split at hpr
  · obtain ⟨p, _, hpsel⟩ := List.mem_filterMap.mp hpr
    split at hpsel
    · rw [← Option.some.inj hpsel]
    · cases hpsel
  · exact absurd hpr (List.not_mem_nil _)

/-- C1: Snapshot/restore round-trip.  If `captureFloatingSnapshot` records
window `id` (found at position `n` of the captured list, whose ids are
distinct) and `id` is later passed to `restoreFloatingPositions` with that
snapshot still in the store, then (1) the store holds exactly the snapshot
of the window's original state `st` with stack index `n`; (2) the restore
pass issues for `id` precisely `restoreOpsForWindow` of that snapshot -
geometry first, then maximize state, then fullscreen state, in that order -
followed only by possible `raise` operations; and (3) replaying the full
trace over the current (tiled, unmaximized, non-fullscreen) states
reproduces the exact original x/y/width/height/fullscreen/maximized tuple
of `st`. -/
theorem snapshot_restore_roundtrip
    (ws restoreWindows : List (Nat × WinState)) (σ : Nat → WinState)
    (id : Nat) (st cur : WinState) (n : Nat)
    (hnodupC : (ws.map Prod.fst).Nodup)
    (hcap : ws[n]? = some (id, st))
    (hnodupR : (restoreWindows.map Prod.fst).Nodup)
    (hmem : (id, cur) ∈ restoreWindows)
    (hmax : st.maximized = 0 ∨ st.maximized = 1 ∨ st.maximized = 2 ∨ st.maximized = 3)
    (hσmax : (σ id).maximized = 0) (hσfs : (σ id).fullscreen = false) :
    mapGet (captureFloatingSnapshot ws) id = some (snapshotOfWindow st n) ∧
    (∃ t, ((restoreFloatingPositions (captureFloatingSnapshot ws)
            restoreWindows).filterMap
          fun pr : Nat × WinOp => if pr.1 = id then some pr.2 else none) =
        restoreOpsForWindow (snapshotOfWindow st n) ++ t ∧
        ∀ op ∈ t, op = WinOp.raise) ∧
    applyTrace σ (restoreFloatingPositions (captureFloatingSnapshot ws)
        restoreWindows) id =
      { σ id with
          x := st.x
          y := st.y
          width := st.width
          height := st.height
          fullscreen := st.fullscreen
          maximized := st.maximized } := by
  have hsnap : mapGet (captureFloatingSnapshot ws) id =
      some (snapshotOfWindow st n) := by
    have h := captureFloatingSnapshotAux_get ws 0 [] id st n hnodupC
      (fun q hq => absurd hq (List.not_mem_nil q)) hcap
    rwa [zero_add] at h
  obtain ⟨t, hfil, hraise⟩ := restore_trace_spec (captureFloatingSnapshot ws)
    restoreWindows id cur (snapshotOfWindow st n) hnodupR hmem hsnap
  have happ : applyTrace σ (restoreFloatingPositions (captureFloatingSnapshot ws)
      restoreWindows) id =
      (restoreOpsForWindow (snapshotOfWindow st n)).foldl applyWinOp (σ id) := by
    rw [applyTrace_filter, hfil, List.foldl_append, foldl_raise_id _ t hraise]
  refine ⟨hsnap, ⟨t, hfil, hraise⟩, ?_⟩
  rw [happ]
  rcases hmax with hm | hm | hm | hm <;>
    cases hfs : st.fullscreen <;>
      simp [restoreOpsForWindow, snapshotOfWindow, wasMaximizedOf, applyWinOp,
        MAXIMIZE_HORIZONTAL, MAXIMIZE_VERTICAL, MAXIMIZE_BOTH, hm, hfs, hσmax, hσfs]

/-- Concrete round-trip: window 5 floats at (10,20,300,400), fullscreen and
maximized both; it is captured, tiled to (0,0,960,1080) unmaximized, and
restored from the snapshot. -/
theorem snapshot_restore_roundtrip_witness :
    mapGet (captureFloatingSnapshot [(5, ⟨10, 20, 300, 400, true, 3, false⟩)]) 5 =
      some (snapshotOfWindow ⟨10, 20, 300, 400, true, 3, false⟩ 0) ∧
    (∃ t, ((restoreFloatingPositions
            (captureFloatingSnapshot [(5, ⟨10, 20, 300, 400, true, 3, false⟩)])
            [(5, ⟨0, 0, 960, 1080, false, 0, false⟩)]).filterMap
          fun pr : Nat × WinOp => if pr.1 = 5 then some pr.2 else none) =
        restoreOpsForWindow
          (snapshotOfWindow ⟨10, 20, 300, 400, true, 3, false⟩ 0) ++ t ∧
        ∀ op ∈ t, op = WinOp.raise) ∧
    applyTrace (fun _ => ⟨0, 0, 960, 1080, false, 0, false⟩)
        (restoreFloatingPositions
          (captureFloatingSnapshot [(5, ⟨10, 20, 300, 400, true, 3, false⟩)])
          [(5, ⟨0, 0, 960, 1080, false, 0, false⟩)]) 5 =
      { (fun _ => (⟨0, 0, 960, 1080, false, 0, false⟩ : WinState)) 5 with
          x := 10
          y := 20
          width := 300
          height := 400
          fullscreen := true
          maximized := 3 } :=
  snapshot_restore_roundtrip
    [(5, ⟨10, 20, 300, 400, true, 3, false⟩)]
    [(5, ⟨0, 0, 960, 1080, false, 0, false⟩)]
    (fun _ => ⟨0, 0, 960, 1080, false, 0, false⟩) 5
    ⟨10, 20, 300, 400, true, 3, false⟩ ⟨0, 0, 960, 1080, false, 0, false⟩ 0
    (by decide) (by decide) (by decide) (by decide) (by decide) rfl rfl

end Slab
